import Mathlib

/-!
Verification of `cmd/validate.go` (Shan1024/uct).

A shallow embedding of the update validator: the scan of the update zip
(`readUpdateZip`), the two distribution indexers (`readDistZip`, `readDistDir`)
and the final reconciliation (`validate`), followed by theorems about them.

Go strings are byte sequences; they are embedded as lists of characters.
The four package-level maps of type `map[string]bool` are only ever used as
sets of keys and are embedded as finite sets of strings.
-/

namespace Uct

/-- A Go string, one list element per byte. -/
abbrev Str := List Char

/-! ## Functions of the Go standard library called by the source -/

/-- Go `strings.HasPrefix(s, pre)`: `len(s) >= len(pre) && s[:len(pre)] == pre`. -/
def stringsHasPrefix (s pre : Str) : Bool :=
  decide (pre.length ≤ s.length) && decide (s.take pre.length = pre)

/-- Go `strings.HasSuffix(s, suf)`: `len(s) >= len(suf) && s[len(s)-len(suf):] == suf`. -/
def stringsHasSuffix (s suf : Str) : Bool :=
  decide (suf.length ≤ s.length) && decide (s.drop (s.length - suf.length) = suf)

/-- Go `strings.TrimPrefix(s, pre)`: `s` without the leading `pre`, or `s` itself. -/
def stringsTrimPrefix (s pre : Str) : Str :=
  if stringsHasPrefix s pre then s.drop pre.length else s

/-- Go `strings.TrimSuffix(s, suf)`: `s` without the trailing `suf`, or `s` itself. -/
def stringsTrimSuffix (s suf : Str) : Str :=
  if stringsHasSuffix s suf then s.take (s.length - suf.length) else s

/-- Search loop of `strings.Index`: `s` is the part of the string not yet examined and `n`
the offset at which it starts. -/
def indexFrom (substr : Str) : Str → Nat → Int
  | [], n => if substr = [] then (n : Int) else -1
  | c :: cs, n => if stringsHasPrefix (c :: cs) substr then (n : Int) else indexFrom substr cs (n + 1)

/-- Go `strings.Index(s, substr)`: the index of the first instance of `substr` in `s`,
or `-1` if `substr` is not present in `s`. -/
def stringsIndex (s substr : Str) : Int := indexFrom substr s 0

/-- Go `strings.Contains(s, substr)`, which is `Index(s, substr) >= 0`. -/
def stringsContains (s substr : Str) : Bool := decide (0 ≤ stringsIndex s substr)

/-- Search loop of `strings.LastIndex`: `best` is the last match found so far. -/
def lastIndexFrom (substr : Str) : Str → Nat → Int → Int
  | [], n, best => if substr = [] then (n : Int) else best
  | c :: cs, n, best =>
    lastIndexFrom substr cs (n + 1) (if stringsHasPrefix (c :: cs) substr then (n : Int) else best)

/-- Go `strings.LastIndex(s, substr)`: the index of the last instance of `substr` in `s`,
or `-1` if `substr` is not present in `s`. -/
def stringsLastIndex (s substr : Str) : Int := lastIndexFrom substr s 0 (-1)

/-- The loop `for len(path) > 0 && path[len(path)-1] == '/'` of Go `path.Base`, which
removes the trailing slashes. -/
def stripTrailingSlashes (path : Str) : Str :=
  (path.reverse.dropWhile (fun c => c == '/')).reverse

/-- Go `path.Base(path)`: the last element of `path`. Trailing slashes are removed before
extracting the last element; the empty path gives `"."` and a path made of slashes only
gives `"/"`. -/
def pathBase (path : Str) : Str :=
  if path = [] then ['.']
  else
    let path := stripTrailingSlashes path
    let i := stringsLastIndex path ['/']
    let path := if 0 ≤ i then path.drop (i + 1).toNat else path
    if path = [] then ['/'] else path

/-! ## Data model -/

/-- The constants of the package that `validate.go` refers to. They are declared in another
file of the package; the embedding takes them, and the path separator of the platform
(`os.PathSeparator`), as parameters. -/
structure Constants where
  LICENSE_FILE : Str
  NOT_A_CONTRIBUTION_FILE : Str
  README_FILE : Str
  UPDATE_DESCRIPTOR_FILE : Str
  INSTRUCTIONS_FILE : Str
  CARBON_HOME : Str
  UPDATE_NAME_PREFIX : Str
  PathSeparator : Char

/-- What the lines 213-227 obtain from an entry: `file.Open()` or `ioutil.ReadAll` fails,
or `yaml.Unmarshal` fails, or the descriptor is decoded and `File_changes.Added_files` is the
given list. -/
inductive Descriptor where
  | readError
  | unmarshalError
  | parsed (Added_files : List Str)
  deriving DecidableEq, Repr

/-- An element of `zipReader.Reader.File`: the entry name and what decoding its content as an
update descriptor gives. -/
structure File where
  Name : Str
  descriptor : Descriptor
  deriving DecidableEq, Repr

/-- Go `file.FileInfo().Name()` of a zip entry, which is `path.Base(file.Name)`. -/
def File.baseName (file : File) : Str := pathBase file.Name

/-- The four package-level variables. -/
structure State where
  allResFiles : Finset Str
  updatedFilesMap : Finset Str
  distFileMap : Finset Str
  addedFilesMap : Finset Str
  deriving DecidableEq

/-- The fatal conditions: each constructor is one place where the source prints a failure
and terminates the process. -/
inductive Failure where
  /-- line 145: "Update file does not have ... prefix" -/
  | updateNamePrefix
  /-- lines 153 and 300: `zip.OpenReader` returned an error -/
  | zipOpen
  /-- line 180: "Update zip file should have a root folder called ..." -/
  | noRootFolder
  /-- line 185: "... should be in ... root directory. But it is in ... directory." -/
  | wrongRootFolder (name rootFolder : Str)
  /-- line 196: "... is not a known resource file. It should be in ... folder" -/
  | notInCarbonHome (name : Str)
  /-- lines 215 and 220: the descriptor entry could not be read -/
  | descriptorRead
  /-- line 226: the descriptor could not be unmarshalled -/
  | descriptorUnmarshal
  /-- line 271: "Following resource file(s) were not found in the update zip: " -/
  | resourceFilesMissing
  /-- lines 283 and 339: "All files not read from zip file" -/
  | notAllFilesRead
  /-- line 365: `filepath.Walk` returned an error -/
  | walk
  /-- lines 121-124: "... not found in distribution and it is not a newly added file." -/
  | notInDistribution (updateLoc : Str)
  deriving DecidableEq, Repr

deriving instance DecidableEq for Except

/-- Modelled from the spec: `printFailureAndExit` is declared in another file of the package.
By its name, its uses (line 153 guards the use of a reader that failed to open) and the
spec ("any fatal condition emits a failure banner plus violation detail and terminates with
a non-zero outcome") it prints its arguments and ends the process: nothing after the call
is executed. -/
def printFailureAndExit {α : Type} (f : Failure) : Except Failure α := Except.error f

/-! ## The source functions -/

/-- Source `initialize` (lines 85-96); the name is a reserved word here. -/
def initializeState (k : Constants) : State :=
  { allResFiles :=
      insert k.INSTRUCTIONS_FILE (insert k.UPDATE_DESCRIPTOR_FILE (insert k.README_FILE
        (insert k.NOT_A_CONTRIBUTION_FILE (insert k.LICENSE_FILE ∅))))
    updatedFilesMap := ∅
    distFileMap := ∅
    addedFilesMap := ∅ }

/-- Source `validate` (lines 99-131). `order` is the sequence in which the `range` loop of
line 102 visits the keys of `updatedFilesMap`; Go leaves it unspecified. -/
def validate (st : State) : (order : List Str) → Except Failure Unit
  | [] => Except.ok ()
  | updateLoc :: rest =>
    if updateLoc ∈ st.distFileMap then validate st rest
    else if updateLoc ∈ st.addedFilesMap then validate st rest
    else Except.error (Failure.notInDistribution updateLoc)

/-- The name derived from a zip location by lines 137-140 (and 292-295). -/
def zipName (k : Constants) (zipLocation : Str) : Str :=
  let name := stringsTrimSuffix zipLocation ".zip".toList
  let lastIndex := stringsLastIndex name [k.PathSeparator]
  if -1 < lastIndex then name.drop (lastIndex + 1).toNat else name

/-- The body of the loop of `readUpdateZip` from line 174 on (lines 174-234), acting on the
package-level variables. -/
def scanEntry (k : Constants) (updateName : Str) (file : File) (st : State) :
    Except Failure State := do
  let index := stringsIndex file.Name ['/']
  if index = -1 then
    printFailureAndExit Failure.noRootFolder
  else
    let rootFolder := file.Name.take index.toNat
    if rootFolder ≠ updateName then
      printFailureAndExit (Failure.wrongRootFolder file.Name rootFolder)
    else
      let found := decide (file.baseName ∈ st.allResFiles)
      if !found then
        let containsCarbonHome := stringsContains file.Name k.CARBON_HOME
        if !containsCarbonHome then
          printFailureAndExit (Failure.notInCarbonHome file.Name)
        else
          let temp := stringsTrimPrefix file.Name (updateName ++ ['/'] ++ k.CARBON_HOME)
          pure { st with updatedFilesMap := insert temp st.updatedFilesMap }
      else
        let st := { st with allResFiles := st.allResFiles.erase file.baseName }
        if file.baseName = k.UPDATE_DESCRIPTOR_FILE then
          match file.descriptor with
          | Descriptor.readError => printFailureAndExit Failure.descriptorRead
          | Descriptor.unmarshalError => printFailureAndExit Failure.descriptorUnmarshal
          | Descriptor.parsed Added_files =>
            pure { st with addedFilesMap := st.addedFilesMap ∪ Added_files.toFinset }
        else
          pure st

/-- The loop of lines 167-235 with its counter `fileCount`. -/
def scanEntries (k : Constants) (updateName : Str) :
    List File → State → Nat → Except Failure (State × Nat)
  | [], st, fileCount => pure (st, fileCount)
  | file :: rest, st, fileCount => do
    let fileCount := fileCount + 1
    let st ← scanEntry k updateName file st
    scanEntries k updateName rest st fileCount

/-- Lines 239-285 of `readUpdateZip`: the optional resource files are dropped from
`allResFiles`, the remaining ones are fatal, and the counter is compared. -/
def finishUpdateZip (k : Constants) (totalFiles : Nat) (st : State) (fileCount : Nat) :
    Except Failure State := do
  let st :=
    if k.INSTRUCTIONS_FILE ∈ st.allResFiles then
      { st with allResFiles := st.allResFiles.erase k.INSTRUCTIONS_FILE }
    else st
  let st :=
    if k.NOT_A_CONTRIBUTION_FILE ∈ st.allResFiles then
      { st with allResFiles := st.allResFiles.erase k.NOT_A_CONTRIBUTION_FILE }
    else st
  if st.allResFiles.card ≠ 0 then
    printFailureAndExit Failure.resourceFilesMissing
  else if totalFiles = fileCount then
    pure st
  else
    printFailureAndExit Failure.notAllFilesRead

/-- Source `readUpdateZip` (lines 134-285). `zip` is what `zip.OpenReader(zipLocation)`
returns: `none` for an error, else the entries `zipReader.Reader.File`. -/
def readUpdateZip (k : Constants) (zipLocation : Str) (zip : Option (List File))
    (st : State) : Except Failure State := do
  let updateName := zipName k zipLocation
  if !stringsHasPrefix updateName k.UPDATE_NAME_PREFIX then
    printFailureAndExit Failure.updateNamePrefix
  else
    match zip with
    | none => printFailureAndExit Failure.zipOpen
    | some files =>
      let totalFiles := files.length
      let (st, fileCount) ← scanEntries k updateName files st 0
      finishUpdateZip k totalFiles st fileCount

/-- The loop of lines 314-329 of `readDistZip` with its counter. -/
def distEntries (distName : Str) : List File → State → Nat → State × Nat
  | [], st, fileCount => (st, fileCount)
  | file :: rest, st, fileCount =>
    let fileCount := fileCount + 1
    let temp := stringsTrimPrefix file.Name distName
    distEntries distName rest { st with distFileMap := insert temp st.distFileMap } fileCount

/-- Source `readDistZip` (lines 288-341). -/
def readDistZip (k : Constants) (zipLocation : Str) (zip : Option (List File))
    (st : State) : Except Failure State :=
  let distName := zipName k zipLocation
  match zip with
  | none => printFailureAndExit Failure.zipOpen
  | some files =>
    let totalFiles := files.length
    let (st, fileCount) := distEntries distName files st 0
    if totalFiles = fileCount then pure st
    else printFailureAndExit Failure.notAllFilesRead

/-- The walk function of `readDistDir` (lines 350-363) applied to the paths that
`filepath.Walk` visits, in order. -/
def walkEntries (distributionLocation : Str) : List Str → State → State
  | [], st => st
  | path :: rest, st =>
    let temp := stringsTrimPrefix path distributionLocation
    walkEntries distributionLocation rest { st with distFileMap := insert temp st.distFileMap }

/-- Source `readDistDir` (lines 343-370). `walk` is what `filepath.Walk` does on
`distributionLocation`: `none` when it returns an error, else the paths it passes to the
walk function. -/
def readDistDir (distributionLocation : Str) (walk : Option (List Str)) (st : State) :
    Except Failure State :=
  match walk with
  | none => printFailureAndExit Failure.walk
  | some paths => pure (walkEntries distributionLocation paths st)

/-! ## Notions used to state the properties -/

/-- The root-folder test of lines 177-187 passes on `file`. -/
def rootFolderOk (updateName : Str) (file : File) : Prop :=
  stringsIndex file.Name ['/'] ≠ -1 ∧
    file.Name.take (stringsIndex file.Name ['/']).toNat = updateName

instance (updateName : Str) (file : File) : Decidable (rootFolderOk updateName file) := by
  unfold rootFolderOk
  infer_instance

/-- The key that lines 200-202 record for the entry name `name` of the update zip. -/
def updateKey (k : Constants) (updateName name : Str) : Str :=
  stringsTrimPrefix name (updateName ++ ['/'] ++ k.CARBON_HOME)

/-- The key that lines 324-327 record for the entry name `name` of the distribution zip. -/
def distZipKey (distName name : Str) : Str := stringsTrimPrefix name distName

/-- The key that lines 358-361 record for the walked path `path`. -/
def distDirKey (distributionLocation path : Str) : Str :=
  stringsTrimPrefix path distributionLocation

/-- Whether the descriptor was decoded. -/
def Descriptor.isParsed : Descriptor → Bool
  | Descriptor.parsed _ => true
  | _ => false

/-- The added-files list of a decoded descriptor (empty when it was not decoded). -/
def Descriptor.added : Descriptor → List Str
  | Descriptor.parsed Added_files => Added_files
  | _ => []

/-- Every test of the loop body passes on `file` when the keys of `allResFiles` are `M`:
the root-folder test, the `carbon.home` test when the entry is not taken as a resource file,
and the decoding of the descriptor when it is taken as the descriptor. -/
def entryOk (k : Constants) (updateName : Str) (M : Finset Str) (file : File) : Prop :=
  rootFolderOk updateName file ∧
    (file.baseName ∉ M → stringsContains file.Name k.CARBON_HOME = true) ∧
    (file.baseName ∈ M → file.baseName = k.UPDATE_DESCRIPTOR_FILE →
      file.descriptor.isParsed = true)

instance (k : Constants) (updateName : Str) (M : Finset Str) (file : File) :
    Decidable (entryOk k updateName M file) := by
  unfold entryOk
  infer_instance

/-- The variables after the loop body has passed on `file`. -/
def entryResult (k : Constants) (updateName : Str) (file : File) (st : State) : State :=
  if file.baseName ∈ st.allResFiles then
    { st with
      allResFiles := st.allResFiles.erase file.baseName
      addedFilesMap :=
        if file.baseName = k.UPDATE_DESCRIPTOR_FILE then
          st.addedFilesMap ∪ file.descriptor.added.toFinset
        else st.addedFilesMap }
  else
    { st with updatedFilesMap := insert (updateKey k updateName file.Name) st.updatedFilesMap }

/-- No two entries of `files` have the same base name when that name is a key of `M`. -/
def NoSharedResourceName (M : Finset Str) (files : List File) : Prop :=
  files.Pairwise (fun f g => f.baseName = g.baseName → f.baseName ∉ M)

instance (M : Finset Str) (files : List File) : Decidable (NoSharedResourceName M files) := by
  unfold NoSharedResourceName
  infer_instance

/-- The variables after the loop has passed on all of `files`, written without reference to
the order of `files` (this is what the loop computes when no two entries share a resource
name, see `scanEntries_ok_iff`). -/
def scanResult (k : Constants) (updateName : Str) (files : List File) (st : State) : State :=
  { allResFiles := st.allResFiles \ (files.map File.baseName).toFinset
    updatedFilesMap := st.updatedFilesMap ∪
      ((files.filter (fun f => decide (f.baseName ∉ st.allResFiles))).map
        (fun f => updateKey k updateName f.Name)).toFinset
    distFileMap := st.distFileMap
    addedFilesMap := st.addedFilesMap ∪
      ((files.filter (fun f => decide (f.baseName ∈ st.allResFiles ∧
          f.baseName = k.UPDATE_DESCRIPTOR_FILE))).flatMap
        (fun f => f.descriptor.added)).toFinset }

/-- The failure is one of the two root-folder failures (lines 180 and 185). -/
def Failure.isStructure : Failure → Bool
  | Failure.noRootFolder => true
  | Failure.wrongRootFolder _ _ => true
  | _ => false

/-- The failure is the `carbon.home` failure of line 196. -/
def Failure.isLayout : Failure → Bool
  | Failure.notInCarbonHome _ => true
  | _ => false

/-- The three resource files that lines 239-265 do not drop: their absence is fatal. -/
def Constants.mandatory (k : Constants) : List Str :=
  [k.LICENSE_FILE, k.README_FILE, k.UPDATE_DESCRIPTOR_FILE]

/-- The two resource files that lines 239-265 drop from `allResFiles` when they are left. -/
def Constants.optional (k : Constants) : List Str :=
  [k.INSTRUCTIONS_FILE, k.NOT_A_CONTRIBUTION_FILE]

/-- The variables after lines 239-265 have dropped the optional resource files. -/
def dropOptional (k : Constants) (st : State) : State :=
  { st with
    allResFiles := (st.allResFiles.erase k.INSTRUCTIONS_FILE).erase k.NOT_A_CONTRIBUTION_FILE }

/-- A configuration for the examples. The literal values are not part of `validate.go`; the
prefix and the content-root folder are those of the scenarios of the specification. -/
def sampleConstants : Constants :=
  { LICENSE_FILE := "LICENSE.txt".toList
    NOT_A_CONTRIBUTION_FILE := "NOT_A_CONTRIBUTION.txt".toList
    README_FILE := "README.txt".toList
    UPDATE_DESCRIPTOR_FILE := "update-descriptor.yaml".toList
    INSTRUCTIONS_FILE := "instructions.txt".toList
    CARBON_HOME := "contentroot".toList
    UPDATE_NAME_PREFIX := "upd".toList
    PathSeparator := '/' }

/-- The stack of path elements kept by Go `filepath.Clean` (most recent first) after the
element `c`: a `..` removes the element before it, is dropped at the root of a rooted path
and is kept otherwise. -/
def cleanPush (rooted : Bool) (stack : List Str) (c : Str) : List Str :=
  if c = "..".toList then
    match stack with
    | [] => if rooted then [] else [c]
    | top :: rest => if top = "..".toList then c :: stack else rest
  else c :: stack

/-- Go `filepath.Clean(path)` where the separator is `/`: multiple separators are replaced by
one, each `.` element is eliminated, each inner `..` element is eliminated along with the
element that precedes it, `..` elements that begin a rooted path are eliminated, and the
empty result is `"."`. -/
def filepathClean (path : Str) : Str :=
  let rooted := stringsHasPrefix path ['/']
  let elems := (path.splitOn '/').filter (fun c => decide (c ≠ [] ∧ c ≠ ['.']))
  let stack := elems.foldl (cleanPush rooted) []
  let out := (if rooted then ['/'] else []) ++ ['/'].intercalate stack.reverse
  if out = [] then ['.'] else out

/-- Go `filepath.Join(dir, name)` where the separator is `/`: the non-empty elements joined
by the separator, cleaned. -/
def filepathJoin (dir name : Str) : Str :=
  if dir = [] then (if name = [] then [] else filepathClean name)
  else if name = [] then filepathClean dir
  else filepathClean (dir ++ '/' :: name)

/-- The path that `filepath.Walk(root, ...)` passes to the walk function for the file reached
from `root` through the directory entries `names`: `root` itself, then
`filepath.Join(path, name)` at each level. -/
def walkedPath (root : Str) (names : List Str) : Str := names.foldl filepathJoin root

/-- A piece of the program together with what it prints: the state is the list of the lines
printed so far, and a failure ends the process, so that nothing after it is run. -/
abbrev Printing := ExceptT Failure (StateM (List Str))

/-- Go `fmt.Println` of one line. -/
def Println (line : Str) : Printing Unit := modify (fun out => out ++ [line])

/-- Modelled from the spec: `printFailureAndExit`, declared in another file of the package,
with its output: it prints its message and terminates the process ("any fatal condition emits
a failure banner plus violation detail and terminates with a non-zero outcome"). -/
def printFailureAndExitPrinting {α : Type} (message : Str) (f : Failure) : Printing α := do
  Println message
  throw f

/-- Lines 267-275 of `readUpdateZip` with what they print. `order` is the order in which the
`range` loop of line 272 visits the keys of `allResFiles`; line 273 prints `"\t"`, `"-"` and
the key separated by blanks. -/
def reportMissingResources (st : State) (order : List Str) : Printing Unit := do
  if st.allResFiles.card ≠ 0 then
    printFailureAndExitPrinting
      "Following resource file(s) were not found in the update zip: ".toList
      Failure.resourceFilesMissing
    order.forM (fun key => Println ("\t - ".toList ++ key))

/-- The part of `s` after its last `sep`, the whole of `s` when it has none. -/
def afterLast (sep : Char) (s : Str) : Str :=
  (s.reverse.takeWhile (fun c => c != sep)).reverse

/-- The base name of a zip location in the words of the specification: the location without
its `.zip` suffix and without everything up to the last path separator. -/
def baseNameOfLocation (sep : Char) (zipLocation : Str) : Str :=
  afterLast sep
    (if ".zip".toList <:+ zipLocation then zipLocation.take (zipLocation.length - 4)
      else zipLocation)

/-! ## Facts about the string functions -/

theorem stringsHasPrefix_iff (s pre : Str) : stringsHasPrefix s pre = true ↔ pre <+: s := by
  unfold stringsHasPrefix
  rw [List.prefix_iff_eq_take]
  simp only [Bool.and_eq_true, decide_eq_true_eq]
  constructor
  · rintro ⟨_, h⟩
    exact h.symm
  · intro h
    refine ⟨?_, h.symm⟩
    have := congrArg List.length h
    simp at this
    omega

theorem stringsHasPrefix_append (pre t : Str) : stringsHasPrefix (pre ++ t) pre = true :=
  (stringsHasPrefix_iff _ _).2 (List.prefix_append pre t)

theorem stringsTrimPrefix_append (pre t : Str) : stringsTrimPrefix (pre ++ t) pre = t := by
  simp [stringsTrimPrefix, stringsHasPrefix_append]

theorem stringsHasPrefix_slash (c : Char) (cs : Str) :
    stringsHasPrefix (c :: cs) ['/'] = decide (c = '/') := by
  simp [stringsHasPrefix]

theorem indexFrom_slash_of_not_mem (s : Str) (n : Nat) (h : '/' ∉ s) :
    indexFrom ['/'] s n = -1 := by
  induction s generalizing n with
  | nil => simp [indexFrom]
  | cons c cs ih =>
    simp only [List.mem_cons, not_or] at h
    have hc : c ≠ '/' := fun e => h.1 e.symm
    simp [indexFrom, stringsHasPrefix_slash, hc, ih (n + 1) h.2]

theorem indexFrom_slash_append (a b : Str) (n : Nat) (h : '/' ∉ a) :
    indexFrom ['/'] (a ++ '/' :: b) n = ((n + a.length : Nat) : Int) := by
  induction a generalizing n with
  | nil => simp [indexFrom, stringsHasPrefix_slash]
  | cons c cs ih =>
    simp only [List.mem_cons, not_or] at h
    have hc : c ≠ '/' := fun e => h.1 e.symm
    show indexFrom ['/'] (c :: (cs ++ '/' :: b)) n = _
    rw [indexFrom, stringsHasPrefix_slash, ih (n + 1) h.2]
    simp only [hc, decide_False, Bool.false_eq_true, if_false, List.length_cons]
    congr 1
    omega

theorem exists_first_slash (s : Str) (h : '/' ∈ s) :
    ∃ a b, s = a ++ '/' :: b ∧ '/' ∉ a := by
  induction s with
  | nil => simp at h
  | cons c cs ih =>
    by_cases hc : c = '/'
    · exact ⟨[], cs, by simp [hc], by simp⟩
    · have hcs : '/' ∈ cs := by
        rcases List.mem_cons.1 h with h | h
        · exact absurd h.symm hc
        · exact h
      obtain ⟨a, b, hab, ha⟩ := ih hcs
      refine ⟨c :: a, b, by simp [hab], ?_⟩
      simp only [List.mem_cons, not_or]
      exact ⟨fun e => hc e.symm, ha⟩

theorem indexFrom_nonneg_of_infix (sub b : Str) (a : Str) (n : Nat) :
    0 ≤ indexFrom sub (a ++ (sub ++ b)) n := by
  induction a generalizing n with
  | nil =>
    cases h : sub ++ b with
    | nil =>
      have hsub : sub = [] := (List.append_eq_nil.1 h).1
      simp [indexFrom, hsub]
    | cons c cs =>
      have hp : stringsHasPrefix (c :: cs) sub = true := by
        rw [← h]
        exact stringsHasPrefix_append sub b
      simp [h, indexFrom, hp]
  | cons x a ih =>
    show 0 ≤ indexFrom sub (x :: (a ++ (sub ++ b))) n
    rw [indexFrom]
    split
    · exact Int.natCast_nonneg n
    · exact ih (n + 1)

theorem stringsContains_infix (a sub b : Str) : stringsContains (a ++ sub ++ b) sub = true := by
  unfold stringsContains stringsIndex
  rw [List.append_assoc]
  simpa using indexFrom_nonneg_of_infix sub b a 0

theorem lastIndexFrom_slash_of_not_mem (s : Str) (n : Nat) (best : Int) (h : '/' ∉ s) :
    lastIndexFrom ['/'] s n best = best := by
  induction s generalizing n best with
  | nil => simp [lastIndexFrom]
  | cons c cs ih =>
    simp only [List.mem_cons, not_or] at h
    have hc : c ≠ '/' := fun e => h.1 e.symm
    rw [lastIndexFrom, stringsHasPrefix_slash, ih (n + 1) _ h.2]
    simp [hc]

theorem lastIndexFrom_slash_append (a b : Str) (n : Nat) (best : Int) (h : '/' ∉ b) :
    lastIndexFrom ['/'] (a ++ '/' :: b) n best = ((n + a.length : Nat) : Int) := by
  induction a generalizing n best with
  | nil =>
    show lastIndexFrom ['/'] ('/' :: b) n best = _
    rw [lastIndexFrom, stringsHasPrefix_slash, lastIndexFrom_slash_of_not_mem b _ _ h]
    simp
  | cons c cs ih =>
    show lastIndexFrom ['/'] (c :: (cs ++ '/' :: b)) n best = _
    rw [lastIndexFrom, ih (n + 1)]
    simp only [List.length_cons]
    congr 1
    omega

theorem stripTrailingSlashes_of_last (t : Str) (c : Char) (hc : c ≠ '/') :
    stripTrailingSlashes (t ++ [c]) = t ++ [c] := by
  unfold stripTrailingSlashes
  rw [List.reverse_append, List.reverse_singleton, List.singleton_append, List.dropWhile_cons]
  simp [hc]

/-- The base name of `dir/name` is `name` when `name` is a plain file name. -/
theorem pathBase_append (dir name : Str) (hne : name ≠ []) (hslash : '/' ∉ name) :
    pathBase (dir ++ '/' :: name) = name := by
  obtain ⟨t, c, rfl⟩ : ∃ t c, name = t ++ [c] := by
    rcases List.eq_nil_or_concat name with h | ⟨t, c, h⟩
    · exact absurd h hne
    · exact ⟨t, c, by simpa using h⟩
  have hc : c ≠ '/' := fun e => hslash (by simp [e])
  have hstrip : stripTrailingSlashes (dir ++ '/' :: (t ++ [c])) = dir ++ '/' :: (t ++ [c]) := by
    have := stripTrailingSlashes_of_last (dir ++ '/' :: t) c hc
    simpa using this
  have hidx : stringsLastIndex (dir ++ '/' :: (t ++ [c])) ['/'] = (dir.length : Int) := by
    unfold stringsLastIndex
    rw [lastIndexFrom_slash_append dir (t ++ [c]) 0 (-1) hslash]
    simp
  unfold pathBase
  simp only [hstrip, hidx]
  have hdrop : List.drop ((dir.length : Int) + 1).toNat (dir ++ '/' :: (t ++ [c])) = t ++ [c] := by
    have : ((dir.length : Int) + 1).toNat = dir.length + 1 := by omega
    rw [this]
    simp
  simp [hdrop]

theorem updateKey_under_root (k : Constants) (updateName q : Str) :
    updateKey k updateName (updateName ++ '/' :: (k.CARBON_HOME ++ '/' :: q)) = '/' :: q := by
  unfold updateKey
  have h : updateName ++ '/' :: (k.CARBON_HOME ++ '/' :: q) =
      (updateName ++ ['/'] ++ k.CARBON_HOME) ++ '/' :: q := by simp
  rw [h, stringsTrimPrefix_append]

theorem stringsTrimPrefix_of_head (r s : Str) (hr : r.head? ≠ some '/') :
    stringsTrimPrefix ('/' :: s) r = '/' :: s := by
  cases r with
  | nil => simp [stringsTrimPrefix]
  | cons c cs =>
    have hc : c ≠ '/' := fun e => hr (by simp [e])
    have hp : stringsHasPrefix ('/' :: s) (c :: cs) = false := by
      simp only [stringsHasPrefix, List.length_cons, List.take_succ_cons, List.cons.injEq,
        Bool.and_eq_false_imp, decide_eq_true_eq, decide_eq_false_iff_not, not_and]
      intro _ e
      exact absurd e.symm hc
    simp [stringsTrimPrefix, hp]

theorem stringsTrimPrefix_idempotent (r q : Str) (hr : r.head? ≠ some '/') :
    stringsTrimPrefix (stringsTrimPrefix (r ++ '/' :: q) r) r =
      stringsTrimPrefix (r ++ '/' :: q) r := by
  rw [stringsTrimPrefix_append, stringsTrimPrefix_of_head r q hr]

/-- The root-folder test of lines 177-187 passes exactly for the names `N/...` where `N`
has no slash. -/
theorem rootFolder_check_iff (name updateName : Str) :
    (stringsIndex name ['/'] ≠ -1 ∧
        name.take (stringsIndex name ['/']).toNat = updateName) ↔
      ('/' ∉ updateName ∧ ∃ rest, name = updateName ++ '/' :: rest) := by
  by_cases hs : '/' ∈ name
  · obtain ⟨a, b, hab, ha⟩ := exists_first_slash name hs
    have hidx : stringsIndex name ['/'] = (a.length : Int) := by
      rw [hab, stringsIndex, indexFrom_slash_append a b 0 ha]
      simp
    rw [hidx]
    have htake : name.take a.length = a := by
      rw [hab]; simp
    simp only [Int.toNat_ofNat, htake]
    constructor
    · rintro ⟨_, rfl⟩
      exact ⟨ha, b, hab⟩
    · rintro ⟨hN, rest, hrest⟩
      refine ⟨by omega, ?_⟩
      rw [hab] at hrest
      -- both decompositions split at the first slash
      rcases List.append_eq_append_iff.1 hrest with ⟨c, hc1, hc2⟩ | ⟨c, hc1, hc2⟩
      · cases c with
        | nil => simpa using hc1.symm
        | cons x xs =>
          simp only [List.cons_append, List.cons.injEq] at hc2
          exact absurd (by rw [hc1, ← hc2.1]; simp) hN
      · cases c with
        | nil => simpa using hc1
        | cons x xs =>
          simp only [List.cons_append, List.cons.injEq] at hc2
          exact absurd (by rw [hc1, ← hc2.1]; simp) ha
  · have hidx : stringsIndex name ['/'] = -1 := indexFrom_slash_of_not_mem name 0 hs
    simp only [hidx, ne_eq, not_true_eq_false, false_and, false_iff, not_and, not_exists]
    intro _ rest hrest
    exact hs (by rw [hrest]; simp)

theorem takeWhile_ne_slash_append (a b : Str) (h : '/' ∉ a) :
    (a ++ '/' :: b).takeWhile (fun c => c != '/') = a := by
  induction a with
  | nil => simp
  | cons c cs ih =>
    simp only [List.mem_cons, not_or] at h
    have hc : c ≠ '/' := fun e => h.1 e.symm
    simp [List.takeWhile_cons, hc, ih h.2]

/-- The root-folder test passes exactly when the name contains a slash and the segment before
its first slash is `updateName`. -/
theorem rootFolderOk_iff (updateName : Str) (file : File) :
    rootFolderOk updateName file ↔
      ('/' ∈ file.Name ∧ file.Name.takeWhile (fun c => c != '/') = updateName) := by
  unfold rootFolderOk
  rw [rootFolder_check_iff]
  constructor
  · rintro ⟨hN, rest, hrest⟩
    rw [hrest]
    exact ⟨by simp, takeWhile_ne_slash_append updateName rest hN⟩
  · rintro ⟨hs, ht⟩
    obtain ⟨a, b, hab, ha⟩ := exists_first_slash file.Name hs
    rw [hab, takeWhile_ne_slash_append a b ha] at ht
    subst ht
    exact ⟨ha, b, hab⟩

theorem stringsHasSuffix_iff (s suf : Str) : stringsHasSuffix s suf = true ↔ suf <:+ s := by
  unfold stringsHasSuffix
  rw [List.suffix_iff_eq_drop]
  simp only [Bool.and_eq_true, decide_eq_true_eq]
  constructor
  · rintro ⟨_, h⟩
    exact h.symm
  · intro h
    refine ⟨?_, h.symm⟩
    have := congrArg List.length h
    simp at this
    omega

theorem stringsHasPrefix_singleton (c x : Char) (xs : Str) :
    stringsHasPrefix (x :: xs) [c] = decide (x = c) := by
  simp [stringsHasPrefix]

theorem lastIndexFrom_char_of_not_mem (c : Char) (s : Str) (n : Nat) (best : Int)
    (h : c ∉ s) : lastIndexFrom [c] s n best = best := by
  induction s generalizing n best with
  | nil => simp [lastIndexFrom]
  | cons x xs ih =>
    simp only [List.mem_cons, not_or] at h
    have hx : x ≠ c := fun e => h.1 e.symm
    rw [lastIndexFrom, stringsHasPrefix_singleton, ih (n + 1) _ h.2]
    simp [hx]

theorem lastIndexFrom_char_append (c : Char) (a b : Str) (n : Nat) (best : Int)
    (h : c ∉ b) :
    lastIndexFrom [c] (a ++ c :: b) n best = ((n + a.length : Nat) : Int) := by
  induction a generalizing n best with
  | nil =>
    show lastIndexFrom [c] (c :: b) n best = _
    rw [lastIndexFrom, stringsHasPrefix_singleton, lastIndexFrom_char_of_not_mem c b _ _ h]
    simp
  | cons x xs ih =>
    show lastIndexFrom [c] (x :: (xs ++ c :: b)) n best = _
    rw [lastIndexFrom, ih (n + 1)]
    simp only [List.length_cons]
    congr 1
    omega

theorem exists_last_char (c : Char) (s : Str) (h : c ∈ s) :
    ∃ a b, s = a ++ c :: b ∧ c ∉ b := by
  induction s with
  | nil => simp at h
  | cons x xs ih =>
    by_cases hxs : c ∈ xs
    · obtain ⟨a, b, hab, hb⟩ := ih hxs
      exact ⟨x :: a, b, by simp [hab], hb⟩
    · have hx : c = x := by
        rcases List.mem_cons.1 h with h | h
        · exact h
        · exact absurd h hxs
      exact ⟨[], xs, by simp [hx], hxs⟩

theorem afterLast_of_not_mem (sep : Char) (s : Str) (h : sep ∉ s) : afterLast sep s = s := by
  unfold afterLast
  have : s.reverse.takeWhile (fun c => c != sep) = s.reverse := by
    rw [List.takeWhile_eq_self_iff]
    intro x hx
    have hx2 : x ∈ s := List.mem_reverse.1 hx
    have : x ≠ sep := fun e => h (e ▸ hx2)
    simp [this]
  rw [this, List.reverse_reverse]

theorem afterLast_append (sep : Char) (a b : Str) (h : sep ∉ b) :
    afterLast sep (a ++ sep :: b) = b := by
  unfold afterLast
  have hrev : (a ++ sep :: b).reverse = b.reverse ++ sep :: a.reverse := by simp
  have htw : ∀ (l t : Str), sep ∉ l →
      (l ++ sep :: t).takeWhile (fun c => c != sep) = l := by
    intro l t hl
    induction l with
    | nil => simp
    | cons x xs ih =>
      simp only [List.mem_cons, not_or] at hl
      have hx : x ≠ sep := fun e => hl.1 e.symm
      simp [List.takeWhile_cons, hx, ih hl.2]
  rw [hrev, htw b.reverse a.reverse (fun hm => h (List.mem_reverse.1 hm)), List.reverse_reverse]

/-- Lines 138-140 keep the part after the last separator. -/
theorem drop_lastIndex_eq_afterLast (sep : Char) (name : Str) :
    (if -1 < stringsLastIndex name [sep] then
        name.drop (stringsLastIndex name [sep] + 1).toNat else name) = afterLast sep name := by
  by_cases hs : sep ∈ name
  · obtain ⟨a, b, hab, hb⟩ := exists_last_char sep name hs
    have hidx : stringsLastIndex name [sep] = (a.length : Int) := by
      rw [hab, stringsLastIndex, lastIndexFrom_char_append sep a b 0 (-1) hb]
      simp
    have hpos : (-1 : Int) < (a.length : Int) := by omega
    have hnat : ((a.length : Int) + 1).toNat = a.length + 1 := by omega
    rw [hidx, if_pos hpos, hnat, hab, afterLast_append sep a b hb]
    simp
  · have hidx : stringsLastIndex name [sep] = -1 :=
      lastIndexFrom_char_of_not_mem sep name 0 (-1) hs
    rw [hidx, afterLast_of_not_mem sep name hs]
    simp

theorem zipName_eq_baseNameOfLocation (k : Constants) (zipLocation : Str) :
    zipName k zipLocation = baseNameOfLocation k.PathSeparator zipLocation := by
  unfold zipName baseNameOfLocation
  have htrim : stringsTrimSuffix zipLocation ".zip".toList =
      (if ".zip".toList <:+ zipLocation then zipLocation.take (zipLocation.length - 4)
        else zipLocation) := by
    unfold stringsTrimSuffix
    by_cases h : ".zip".toList <:+ zipLocation
    · rw [if_pos ((stringsHasSuffix_iff _ _).2 h), if_pos h]
      rfl
    · have hf : ¬ stringsHasSuffix zipLocation ".zip".toList = true :=
        fun e => h ((stringsHasSuffix_iff _ _).1 e)
      rw [if_neg hf, if_neg h]
  simp only [htrim]
  exact drop_lastIndex_eq_afterLast k.PathSeparator _

/-! ## The loop body of `readUpdateZip` -/

theorem State.ext_fields {s t : State} (h1 : s.allResFiles = t.allResFiles)
    (h2 : s.updatedFilesMap = t.updatedFilesMap) (h3 : s.distFileMap = t.distFileMap)
    (h4 : s.addedFilesMap = t.addedFilesMap) : s = t := by
  cases s; cases t; simp_all

theorem scanEntry_ok_iff (k : Constants) (updateName : Str) (file : File) (st st1 : State) :
    scanEntry k updateName file st = Except.ok st1 ↔
      entryOk k updateName st.allResFiles file ∧ entryResult k updateName file st = st1 := by
  unfold scanEntry entryOk rootFolderOk entryResult printFailureAndExit updateKey
  by_cases h1 : stringsIndex file.Name ['/'] = -1
  · simp [h1]
  · by_cases h2 : file.Name.take (stringsIndex file.Name ['/']).toNat = updateName
    · by_cases h3 : file.baseName ∈ st.allResFiles
      · by_cases h4 : file.baseName = k.UPDATE_DESCRIPTOR_FILE
        · have h3d : k.UPDATE_DESCRIPTOR_FILE ∈ st.allResFiles := h4 ▸ h3
          cases hd : file.descriptor <;>
            simp [h1, h2, h3d, h4, hd, pure, Except.pure, Descriptor.isParsed, Descriptor.added]
        · simp [h1, h2, h3, h4, pure, Except.pure]
      · by_cases h5 : stringsContains file.Name k.CARBON_HOME = true
        · simp [h1, h2, h3, h5, pure, Except.pure]
        · simp [h1, h2, h3, h5, pure, Except.pure]
    · simp [h1, h2]

/-! ## The loop of `readUpdateZip` when no two entries share a resource name -/

theorem entryResult_allResFiles_subset (k : Constants) (updateName : Str) (file : File)
    (st : State) : (entryResult k updateName file st).allResFiles ⊆ st.allResFiles := by
  unfold entryResult
  split
  · exact Finset.erase_subset _ _
  · exact Finset.Subset.refl _

theorem entryResult_mem_allResFiles (k : Constants) (updateName : Str) (file g : File)
    (st : State) (hg : file.baseName = g.baseName → file.baseName ∉ st.allResFiles) :
    g.baseName ∈ (entryResult k updateName file st).allResFiles ↔
      g.baseName ∈ st.allResFiles := by
  unfold entryResult
  split
  · rename_i h
    simp only [Finset.mem_erase, ne_eq, and_iff_right_iff_imp]
    intro _ e
    exact hg e.symm h
  · exact Iff.rfl

theorem scanResult_nil (k : Constants) (updateName : Str) (st : State) :
    scanResult k updateName [] st = st := by
  apply State.ext_fields <;> simp [scanResult]

theorem scanResult_cons (k : Constants) (updateName : Str) (file : File) (rest : List File)
    (st : State)
    (h : ∀ g ∈ rest, file.baseName = g.baseName → file.baseName ∉ st.allResFiles) :
    scanResult k updateName rest (entryResult k updateName file st) =
      scanResult k updateName (file :: rest) st := by
  have hmem : ∀ g ∈ rest, (g.baseName ∈ (entryResult k updateName file st).allResFiles ↔
      g.baseName ∈ st.allResFiles) :=
    fun g hg => entryResult_mem_allResFiles k updateName file g st (h g hg)
  have hf1 : rest.filter (fun f => decide (f.baseName ∉
        (entryResult k updateName file st).allResFiles)) =
      rest.filter (fun f => decide (f.baseName ∉ st.allResFiles)) := by
    apply List.filter_congr
    intro g hg
    simp [hmem g hg]
  have hf2 : rest.filter (fun f => decide (f.baseName ∈
        (entryResult k updateName file st).allResFiles ∧
          f.baseName = k.UPDATE_DESCRIPTOR_FILE)) =
      rest.filter (fun f => decide (f.baseName ∈ st.allResFiles ∧
          f.baseName = k.UPDATE_DESCRIPTOR_FILE)) := by
    apply List.filter_congr
    intro g hg
    simp [hmem g hg]
  unfold scanResult
  rw [hf1, hf2]
  by_cases hres : file.baseName ∈ st.allResFiles
  · by_cases hdesc : file.baseName = k.UPDATE_DESCRIPTOR_FILE
    · have hres2 : k.UPDATE_DESCRIPTOR_FILE ∈ st.allResFiles := hdesc ▸ hres
      apply State.ext_fields
      · ext p
        simp [entryResult, hres, hres2, hdesc, List.filter_cons]
        tauto
      · simp [entryResult, hres, hres2, hdesc, List.filter_cons]
      · simp [entryResult, hres, hres2, hdesc]
      · ext p
        simp [entryResult, hres, hres2, hdesc, List.filter_cons, or_assoc]
    · apply State.ext_fields
      · ext p
        simp [entryResult, hres, hdesc, List.filter_cons]
        tauto
      · simp [entryResult, hres, hdesc, List.filter_cons]
      · simp [entryResult, hres]
      · simp [entryResult, hres, hdesc, List.filter_cons]
  · apply State.ext_fields
    · ext p
      simp [entryResult, hres, List.filter_cons]
      intro hp _ e
      exact hres (e ▸ hp)
    · ext p
      simp [entryResult, hres, List.filter_cons]
    · simp [entryResult, hres]
    · simp [entryResult, hres, List.filter_cons]

theorem scanEntries_ok_iff (k : Constants) (updateName : Str) (files : List File) :
    ∀ (st : State) (n : Nat) (r : State × Nat), NoSharedResourceName st.allResFiles files →
      (scanEntries k updateName files st n = Except.ok r ↔
        (∀ f ∈ files, entryOk k updateName st.allResFiles f) ∧
          (scanResult k updateName files st, n + files.length) = r) := by
  induction files with
  | nil =>
    intro st n r _
    simp [scanEntries, pure, Except.pure, scanResult_nil]
  | cons file rest ih =>
    intro st n r hns
    obtain ⟨hfile, hrest⟩ := List.pairwise_cons.1 hns
    have hns1 : NoSharedResourceName (entryResult k updateName file st).allResFiles rest :=
      List.Pairwise.imp
        (fun {f g} h e hm => h e (entryResult_allResFiles_subset k updateName file st hm)) hrest
    have hok : ∀ g ∈ rest, (entryOk k updateName
        (entryResult k updateName file st).allResFiles g ↔
          entryOk k updateName st.allResFiles g) := by
      intro g hg
      unfold entryOk
      rw [entryResult_mem_allResFiles k updateName file g st (hfile g hg)]
    cases hstep : scanEntry k updateName file st with
    | error e =>
      have hnot : ¬ entryOk k updateName st.allResFiles file := by
        intro h
        have := (scanEntry_ok_iff k updateName file st _).2 ⟨h, rfl⟩
        rw [hstep] at this
        cases this
      simp [scanEntries, hstep, bind, Except.bind, hnot]
    | ok st1 =>
      obtain ⟨hentry, hst1⟩ := (scanEntry_ok_iff k updateName file st st1).1 hstep
      subst hst1
      have hunfold : scanEntries k updateName (file :: rest) st n =
          scanEntries k updateName rest (entryResult k updateName file st) (n + 1) := by
        simp [scanEntries, hstep, bind, Except.bind]
      rw [hunfold, ih _ _ _ hns1, scanResult_cons k updateName file rest st hfile]
      simp only [List.mem_cons, forall_eq_or_imp, hentry, true_and, List.length_cons]
      constructor
      · rintro ⟨h1, h2⟩
        refine ⟨fun g hg => (hok g hg).1 (h1 g hg), ?_⟩
        rw [← h2]
        congr 1
        omega
      · rintro ⟨h1, h2⟩
        refine ⟨fun g hg => (hok g hg).2 (h1 g hg), ?_⟩
        rw [← h2]
        congr 1
        omega

theorem scanResult_perm (k : Constants) (updateName : Str) (files files2 : List File)
    (st : State) (hperm : files.Perm files2) :
    scanResult k updateName files st = scanResult k updateName files2 st := by
  apply State.ext_fields
  · ext p
    simp [scanResult, hperm.mem_iff]
  · ext p
    simp [scanResult, hperm.mem_iff]
  · rfl
  · ext p
    simp [scanResult, hperm.mem_iff]

theorem NoSharedResourceName_perm (M : Finset Str) (files files2 : List File)
    (hperm : files.Perm files2) (h : NoSharedResourceName M files) :
    NoSharedResourceName M files2 := by
  unfold NoSharedResourceName at h ⊢
  refine (hperm.pairwise_iff ?_).1 h
  intro f g hfg e
  rw [e]
  exact hfg e.symm

/-- The loop gives the same outcome on a permutation of the entries when no two entries share
a resource name: it passes on both or fails on both, and when it passes the variables are
the same. -/
theorem scanEntries_perm (k : Constants) (updateName : Str) (files files2 : List File)
    (st : State) (n : Nat) (hperm : files.Perm files2)
    (hshared : NoSharedResourceName st.allResFiles files) :
    (scanEntries k updateName files st n).toOption =
      (scanEntries k updateName files2 st n).toOption := by
  have hshared2 := NoSharedResourceName_perm _ files files2 hperm hshared
  have h1 := scanEntries_ok_iff k updateName files st n
  have h2 := scanEntries_ok_iff k updateName files2 st n
  by_cases hall : ∀ f ∈ files, entryOk k updateName st.allResFiles f
  · have hall2 : ∀ f ∈ files2, entryOk k updateName st.allResFiles f :=
      fun f hf => hall f (hperm.mem_iff.2 hf)
    rw [(h1 _ hshared).2 ⟨hall, rfl⟩, (h2 _ hshared2).2 ⟨hall2, rfl⟩,
      scanResult_perm k updateName files files2 st hperm, hperm.length_eq]
  · have hall2 : ¬ ∀ f ∈ files2, entryOk k updateName st.allResFiles f :=
      fun h => hall (fun f hf => h f (hperm.mem_iff.1 hf))
    cases hs1 : scanEntries k updateName files st n with
    | ok r => exact absurd ((h1 r hshared).1 hs1).1 hall
    | error e1 =>
      cases hs2 : scanEntries k updateName files2 st n with
      | ok r => exact absurd ((h2 r hshared2).1 hs2).1 hall2
      | error e2 => rfl

/-! ## The loop of `readUpdateZip` in general -/

theorem scanEntries_cons_ok (k : Constants) (updateName : Str) (file : File) (rest : List File)
    (st : State) (n : Nat) (r : State × Nat) :
    scanEntries k updateName (file :: rest) st n = Except.ok r ↔
      entryOk k updateName st.allResFiles file ∧
        scanEntries k updateName rest (entryResult k updateName file st) (n + 1) =
          Except.ok r := by
  cases hstep : scanEntry k updateName file st with
  | error e =>
    have hnot : ¬ entryOk k updateName st.allResFiles file := by
      intro h
      have := (scanEntry_ok_iff k updateName file st _).2 ⟨h, rfl⟩
      rw [hstep] at this
      cases this
    simp [scanEntries, hstep, bind, Except.bind, hnot]
  | ok st1 =>
    obtain ⟨hentry, hst1⟩ := (scanEntry_ok_iff k updateName file st st1).1 hstep
    subst hst1
    simp [scanEntries, hstep, bind, Except.bind, hentry]

theorem entryResult_allResFiles (k : Constants) (updateName : Str) (file : File) (st : State) :
    (entryResult k updateName file st).allResFiles = st.allResFiles.erase file.baseName := by
  unfold entryResult
  split
  · rfl
  · rename_i h
    exact (Finset.erase_eq_of_not_mem h).symm

theorem entryResult_distFileMap (k : Constants) (updateName : Str) (file : File) (st : State) :
    (entryResult k updateName file st).distFileMap = st.distFileMap := by
  unfold entryResult
  split <;> rfl

/-- What a successful run of the loop guarantees, whatever the entries are. -/
theorem scanEntries_ok_facts (k : Constants) (updateName : Str) (files : List File) :
    ∀ (st : State) (n : Nat) (r : State × Nat),
      scanEntries k updateName files st n = Except.ok r →
        (∀ f ∈ files, rootFolderOk updateName f) ∧
        r.1.allResFiles = st.allResFiles \ (files.map File.baseName).toFinset ∧
        r.2 = n + files.length ∧
        r.1.distFileMap = st.distFileMap := by
  induction files with
  | nil =>
    intro st n r h
    simp only [scanEntries, pure, Except.pure, Except.ok.injEq] at h
    subst h
    simp
  | cons file rest ih =>
    intro st n r h
    obtain ⟨hentry, hrest⟩ := (scanEntries_cons_ok k updateName file rest st n r).1 h
    obtain ⟨h1, h2, h3, h4⟩ := ih _ _ _ hrest
    refine ⟨?_, ?_, ?_, ?_⟩
    · intro f hf
      rcases List.mem_cons.1 hf with rfl | hf
      · exact hentry.1
      · exact h1 f hf
    · rw [h2, entryResult_allResFiles]
      ext p
      simp
      tauto
    · rw [h3]
      simp
      omega
    · rw [h4, entryResult_distFileMap]

/-- The loop fails only with one of its own five failures. -/
theorem scanEntry_error_kind (k : Constants) (updateName : Str) (file : File) (st : State)
    (e : Failure) (h : scanEntry k updateName file st = Except.error e) :
    (¬ rootFolderOk updateName file ∧ e.isStructure = true) ∨
      (rootFolderOk updateName file ∧
        (e.isLayout = true ∨ e = Failure.descriptorRead ∨ e = Failure.descriptorUnmarshal)) := by
  unfold scanEntry printFailureAndExit at h
  unfold rootFolderOk
  by_cases h1 : stringsIndex file.Name ['/'] = -1
  · simp [h1] at h
    subst h
    simp [h1, Failure.isStructure]
  · by_cases h2 : file.Name.take (stringsIndex file.Name ['/']).toNat = updateName
    · right
      refine ⟨⟨h1, h2⟩, ?_⟩
      by_cases h3 : file.baseName ∈ st.allResFiles
      · by_cases h4 : file.baseName = k.UPDATE_DESCRIPTOR_FILE
        · have h3d : k.UPDATE_DESCRIPTOR_FILE ∈ st.allResFiles := h4 ▸ h3
          cases hd : file.descriptor <;>
            simp [h1, h2, h3d, h4, hd, pure, Except.pure] at h
          · exact Or.inr (Or.inl h.symm)
          · exact Or.inr (Or.inr h.symm)
        · simp [h1, h2, h3, h4, pure, Except.pure] at h
      · by_cases h5 : stringsContains file.Name k.CARBON_HOME = true
        · simp [h1, h2, h3, h5, pure, Except.pure] at h
        · simp [h1, h2, h3, h5, pure, Except.pure] at h
          subst h
          simp [Failure.isLayout]
    · simp [h1, h2] at h
      subst h
      simp [h1, h2, Failure.isStructure]

theorem scanEntries_append (k : Constants) (updateName : Str) (pre rest : List File) :
    ∀ (st : State) (n : Nat),
      scanEntries k updateName (pre ++ rest) st n =
        (scanEntries k updateName pre st n >>= fun r => scanEntries k updateName rest r.1 r.2) := by
  induction pre with
  | nil =>
    intro st n
    simp [scanEntries, pure, Except.pure, bind, Except.bind]
  | cons file pre ih =>
    intro st n
    cases hstep : scanEntry k updateName file st with
    | error e => simp [scanEntries, hstep, bind, Except.bind]
    | ok st1 =>
      have := ih st1 (n + 1)
      simp only [List.cons_append, scanEntries, hstep, bind, Except.bind] at this ⊢
      exact this

theorem scanEntry_structure (k : Constants) (updateName : Str) (file : File) (st : State)
    (h : ¬ rootFolderOk updateName file) :
    ∃ e, scanEntry k updateName file st = Except.error e ∧ e.isStructure = true := by
  cases hstep : scanEntry k updateName file st with
  | error e =>
    rcases scanEntry_error_kind k updateName file st e hstep with ⟨_, he⟩ | ⟨hok, _⟩
    · exact ⟨e, rfl, he⟩
    · exact absurd hok h
  | ok st1 =>
    exact absurd ((scanEntry_ok_iff k updateName file st st1).1 hstep).1.1 h

theorem scanEntries_error_kind (k : Constants) (updateName : Str) (files : List File) :
    ∀ (st : State) (n : Nat) (e : Failure),
      scanEntries k updateName files st n = Except.error e →
        e.isStructure = true ∨ e.isLayout = true ∨ e = Failure.descriptorRead ∨
          e = Failure.descriptorUnmarshal := by
  induction files with
  | nil =>
    intro st n e h
    simp [scanEntries, pure, Except.pure] at h
  | cons file rest ih =>
    intro st n e h
    cases hstep : scanEntry k updateName file st with
    | error e1 =>
      have he : e1 = e := by
        simpa [scanEntries, hstep, bind, Except.bind] using h
      subst he
      rcases scanEntry_error_kind k updateName file st e1 hstep with ⟨_, h1⟩ | ⟨_, h1⟩
      · exact Or.inl h1
      · exact Or.inr h1
    | ok st1 =>
      have hrest : scanEntries k updateName rest st1 (n + 1) = Except.error e := by
        simpa [scanEntries, hstep, bind, Except.bind] using h
      exact ih st1 (n + 1) e hrest

/-! ## The end of `readUpdateZip` -/

theorem finishUpdateZip_eq (k : Constants) (totalFiles : Nat) (st : State) (fileCount : Nat) :
    finishUpdateZip k totalFiles st fileCount =
      if (dropOptional k st).allResFiles = ∅ then
        (if totalFiles = fileCount then Except.ok (dropOptional k st)
          else Except.error Failure.notAllFilesRead)
      else Except.error Failure.resourceFilesMissing := by
  have e1 : ∀ (s : State) (a : Str),
      (if a ∈ s.allResFiles then { s with allResFiles := s.allResFiles.erase a } else s) =
        { s with allResFiles := s.allResFiles.erase a } := by
    intro s a
    split
    · rfl
    · rename_i h
      rw [Finset.erase_eq_of_not_mem h]
  have e2 : (if k.NOT_A_CONTRIBUTION_FILE ∈ st.allResFiles.erase k.INSTRUCTIONS_FILE then
        ({ allResFiles := (st.allResFiles.erase k.INSTRUCTIONS_FILE).erase
            k.NOT_A_CONTRIBUTION_FILE,
           updatedFilesMap := st.updatedFilesMap, distFileMap := st.distFileMap,
           addedFilesMap := st.addedFilesMap } : State)
      else
        { allResFiles := st.allResFiles.erase k.INSTRUCTIONS_FILE,
          updatedFilesMap := st.updatedFilesMap, distFileMap := st.distFileMap,
          addedFilesMap := st.addedFilesMap }) = dropOptional k st := by
    unfold dropOptional
    split
    · rfl
    · rename_i h
      rw [Finset.erase_eq_of_not_mem h]
  unfold finishUpdateZip printFailureAndExit
  simp only [e1, e2]
  by_cases h : (dropOptional k st).allResFiles = ∅
  · have hc : (dropOptional k st).allResFiles.card = 0 := Finset.card_eq_zero.2 h
    simp only [h, hc, if_true, ne_eq, not_true_eq_false, if_false]
    rfl
  · have hc : (dropOptional k st).allResFiles.card ≠ 0 := fun e => h (Finset.card_eq_zero.1 e)
    simp only [h, hc, if_false, ne_eq, not_false_eq_true, if_true]

theorem readUpdateZip_of_scan_ok (k : Constants) (zipLocation : Str) (files : List File)
    (st : State) (r : State × Nat)
    (hnaming : stringsHasPrefix (zipName k zipLocation) k.UPDATE_NAME_PREFIX = true)
    (hscan : scanEntries k (zipName k zipLocation) files st 0 = Except.ok r) :
    readUpdateZip k zipLocation (some files) st =
      if (dropOptional k r.1).allResFiles = ∅ then Except.ok (dropOptional k r.1)
      else Except.error Failure.resourceFilesMissing := by
  have hcount : r.2 = files.length := by
    have := (scanEntries_ok_facts k _ files st 0 r hscan).2.2.1
    simpa using this
  unfold readUpdateZip
  simp only [hnaming, Bool.not_true, Bool.false_eq_true, if_false, hscan, bind, Except.bind]
  rw [finishUpdateZip_eq, hcount]
  simp

theorem readUpdateZip_of_scan_error (k : Constants) (zipLocation : Str) (files : List File)
    (st : State) (e : Failure)
    (hnaming : stringsHasPrefix (zipName k zipLocation) k.UPDATE_NAME_PREFIX = true)
    (hscan : scanEntries k (zipName k zipLocation) files st 0 = Except.error e) :
    readUpdateZip k zipLocation (some files) st = Except.error e := by
  unfold readUpdateZip
  simp only [hnaming, Bool.not_true, Bool.false_eq_true, if_false, hscan, bind, Except.bind]

theorem readUpdateZip_of_naming (k : Constants) (zipLocation : Str) (zip : Option (List File))
    (st : State)
    (hnaming : stringsHasPrefix (zipName k zipLocation) k.UPDATE_NAME_PREFIX = false) :
    readUpdateZip k zipLocation zip st = Except.error Failure.updateNamePrefix := by
  unfold readUpdateZip printFailureAndExit
  simp [hnaming]

/-- After the optional names are dropped nothing is left exactly when every mandatory name is
the base name of an entry. -/
theorem dropOptional_eq_empty_iff (k : Constants) (files : List File) (st : State)
    (hdistinct : ∀ m ∈ k.mandatory, m ∉ k.optional)
    (hst : st.allResFiles =
      (initializeState k).allResFiles \ (files.map File.baseName).toFinset) :
    (dropOptional k st).allResFiles = ∅ ↔
      ∀ m ∈ k.mandatory, ∃ f ∈ files, f.baseName = m := by
  rw [Finset.eq_empty_iff_forall_not_mem]
  simp only [dropOptional, hst, initializeState, Constants.mandatory, Constants.optional,
    List.mem_cons, List.mem_singleton, List.not_mem_nil, or_false, forall_eq_or_imp, forall_eq,
    not_or] at hdistinct ⊢
  simp only [Finset.mem_erase, Finset.mem_sdiff, Finset.mem_insert, Finset.not_mem_empty,
    or_false, List.mem_toFinset, List.mem_map, ne_eq, not_and, not_not]
  obtain ⟨⟨hl1, hl2⟩, ⟨hr1, hr2⟩, ⟨hd1, hd2⟩⟩ := hdistinct
  constructor
  · intro h
    exact ⟨h _ (Ne.symm (Ne.symm hl2)) hl1 (by simp), h _ hr2 hr1 (by simp),
      h _ hd2 hd1 (by simp)⟩
  · rintro ⟨h1, h2, h3⟩ p hp1 hp2 hp3
    rcases hp3 with rfl | rfl | rfl | rfl | rfl
    · exact absurd rfl hp2
    · exact h3
    · exact h2
    · exact absurd rfl hp1
    · exact h1

theorem entryResult_updatedFilesMap (k : Constants) (updateName : Str) (file : File)
    (st : State) :
    (entryResult k updateName file st).updatedFilesMap =
      if file.baseName ∈ st.allResFiles then st.updatedFilesMap
      else insert (updateKey k updateName file.Name) st.updatedFilesMap := by
  unfold entryResult
  split <;> rfl

theorem entryResult_addedFilesMap (k : Constants) (updateName : Str) (file : File)
    (st : State) :
    (entryResult k updateName file st).addedFilesMap =
      if file.baseName ∈ st.allResFiles ∧ file.baseName = k.UPDATE_DESCRIPTOR_FILE then
        st.addedFilesMap ∪ file.descriptor.added.toFinset
      else st.addedFilesMap := by
  unfold entryResult
  by_cases h1 : file.baseName ∈ st.allResFiles
  · by_cases h2 : file.baseName = k.UPDATE_DESCRIPTOR_FILE
    · rw [if_pos h1, if_pos h2, if_pos ⟨h1, h2⟩]
    · rw [if_pos h1, if_neg h2, if_neg (fun h => h2 h.2)]
  · rw [if_neg h1, if_neg (fun h => h1 h.1)]

/-- What a successful run of the loop does to `updatedFilesMap` and `addedFilesMap`, whatever
the entries are: both only grow, every new key of `updatedFilesMap` is the key of an entry that
passed the `carbon.home` test, and every entry whose base name is not a key of `allResFiles`
has its key recorded. -/
theorem scanEntries_ok_maps (k : Constants) (updateName : Str) (files : List File) :
    ∀ (st : State) (n : Nat) (r : State × Nat),
      scanEntries k updateName files st n = Except.ok r →
        st.updatedFilesMap ⊆ r.1.updatedFilesMap ∧
        st.addedFilesMap ⊆ r.1.addedFilesMap ∧
        (∀ p ∈ r.1.updatedFilesMap, p ∈ st.updatedFilesMap ∨
          ∃ f ∈ files, stringsContains f.Name k.CARBON_HOME = true ∧
            p = updateKey k updateName f.Name) ∧
        (∀ f ∈ files, f.baseName ∉ st.allResFiles →
          updateKey k updateName f.Name ∈ r.1.updatedFilesMap) := by
  induction files with
  | nil =>
    intro st n r h
    simp only [scanEntries, pure, Except.pure, Except.ok.injEq] at h
    subst h
    simp
  | cons file rest ih =>
    intro st n r h
    obtain ⟨hentry, hrest⟩ := (scanEntries_cons_ok k updateName file rest st n r).1 h
    obtain ⟨h1, h2, h3, h4⟩ := ih _ _ _ hrest
    have hu := entryResult_updatedFilesMap k updateName file st
    have ha := entryResult_addedFilesMap k updateName file st
    refine ⟨?_, ?_, ?_, ?_⟩
    · refine Finset.Subset.trans ?_ h1
      rw [hu]
      split
      · exact Finset.Subset.refl _
      · exact Finset.subset_insert _ _
    · refine Finset.Subset.trans ?_ h2
      rw [ha]
      split
      · exact Finset.subset_union_left
      · exact Finset.Subset.refl _
    · intro p hp
      rcases h3 p hp with hp1 | ⟨f, hf, hc, hpf⟩
      · rw [hu] at hp1
        by_cases hres : file.baseName ∈ st.allResFiles
        · rw [if_pos hres] at hp1
          exact Or.inl hp1
        · rw [if_neg hres, Finset.mem_insert] at hp1
          rcases hp1 with hp1 | hp1
          · exact Or.inr ⟨file, List.mem_cons_self _ _, hentry.2.1 hres, hp1⟩
          · exact Or.inl hp1
      · exact Or.inr ⟨f, List.mem_cons_of_mem _ hf, hc, hpf⟩
    · intro f hf hres
      rcases List.mem_cons.1 hf with rfl | hf
      · apply h1
        rw [hu, if_neg hres]
        exact Finset.mem_insert_self _ _
      · exact h4 f hf (fun hm => hres (entryResult_allResFiles_subset k updateName file st hm))

theorem readUpdateZip_ok_iff (k : Constants) (zipLocation : Str) (files : List File)
    (st st1 : State) :
    readUpdateZip k zipLocation (some files) st = Except.ok st1 ↔
      stringsHasPrefix (zipName k zipLocation) k.UPDATE_NAME_PREFIX = true ∧
        ∃ r, scanEntries k (zipName k zipLocation) files st 0 = Except.ok r ∧
          (dropOptional k r.1).allResFiles = ∅ ∧ dropOptional k r.1 = st1 := by
  by_cases hnaming : stringsHasPrefix (zipName k zipLocation) k.UPDATE_NAME_PREFIX = true
  · cases hscan : scanEntries k (zipName k zipLocation) files st 0 with
    | error e =>
      rw [readUpdateZip_of_scan_error k zipLocation files st e hnaming hscan]
      simp
    | ok r =>
      rw [readUpdateZip_of_scan_ok k zipLocation files st r hnaming hscan]
      by_cases hempty : (dropOptional k r.1).allResFiles = ∅
      · simp [hnaming, hempty]
      · simp [hnaming, hempty]
  · have hn : stringsHasPrefix (zipName k zipLocation) k.UPDATE_NAME_PREFIX = false := by
      simpa using hnaming
    rw [readUpdateZip_of_naming k zipLocation _ st hn]
    simp [hn]

/-! ## The entries that are not decoded -/

/-- The loop body does not look at the content of an entry unless its base name is that of the
descriptor and still a key of `allResFiles`. -/
theorem scanEntry_congr (k : Constants) (updateName : Str) (f g : File) (st : State)
    (hname : f.Name = g.Name)
    (h : f.baseName = k.UPDATE_DESCRIPTOR_FILE → k.UPDATE_DESCRIPTOR_FILE ∉ st.allResFiles) :
    scanEntry k updateName f st = scanEntry k updateName g st := by
  have hbase : g.baseName = f.baseName := by
    unfold File.baseName
    rw [hname]
  unfold scanEntry
  rw [hbase, ← hname]
  by_cases hres : f.baseName ∈ st.allResFiles
  · have hnd : f.baseName ≠ k.UPDATE_DESCRIPTOR_FILE := by
      intro e
      exact h e (e ▸ hres)
    simp [hres, hnd]
  · simp [hres]

theorem scanEntries_congr (k : Constants) (updateName : Str) (files : List File) :
    ∀ (files2 : List File) (st : State) (n : Nat),
      files.map File.Name = files2.map File.Name →
      (∀ f ∈ files, f.baseName = k.UPDATE_DESCRIPTOR_FILE →
        k.UPDATE_DESCRIPTOR_FILE ∉ st.allResFiles) →
      scanEntries k updateName files st n = scanEntries k updateName files2 st n := by
  induction files with
  | nil =>
    intro files2 st n hnames _
    cases files2 with
    | nil => rfl
    | cons g rest2 => simp at hnames
  | cons f rest ih =>
    intro files2 st n hnames h
    cases files2 with
    | nil => simp at hnames
    | cons g rest2 =>
      simp only [List.map_cons, List.cons.injEq] at hnames
      have hstep := scanEntry_congr k updateName f g st hnames.1
        (h f (List.mem_cons_self _ _))
      cases hf : scanEntry k updateName f st with
      | error e =>
        have hg : scanEntry k updateName g st = Except.error e := by rw [← hstep, hf]
        simp [scanEntries, hf, hg, bind, Except.bind]
      | ok st1 =>
        have hg : scanEntry k updateName g st = Except.ok st1 := by rw [← hstep, hf]
        have hsub : st1.allResFiles ⊆ st.allResFiles := by
          rw [← ((scanEntry_ok_iff k updateName f st st1).1 hf).2]
          exact entryResult_allResFiles_subset k updateName f st
        have hrest := ih rest2 st1 (n + 1) hnames.2
          (fun x hx e hm => h x (List.mem_cons_of_mem _ hx) e (hsub hm))
        simp only [scanEntries, hf, hg, bind, Except.bind]
        exact hrest

/-- The loop leaves `addedFilesMap` as it is when it takes no entry as the descriptor. -/
theorem scanEntries_addedFilesMap (k : Constants) (updateName : Str) (files : List File) :
    ∀ (st : State) (n : Nat) (r : State × Nat),
      scanEntries k updateName files st n = Except.ok r →
      (∀ f ∈ files, f.baseName = k.UPDATE_DESCRIPTOR_FILE →
        k.UPDATE_DESCRIPTOR_FILE ∉ st.allResFiles) →
      r.1.addedFilesMap = st.addedFilesMap := by
  induction files with
  | nil =>
    intro st n r h _
    simp only [scanEntries, pure, Except.pure, Except.ok.injEq] at h
    subst h
    rfl
  | cons file rest ih =>
    intro st n r h hno
    obtain ⟨_, hrest⟩ := (scanEntries_cons_ok k updateName file rest st n r).1 h
    have hstep : (entryResult k updateName file st).addedFilesMap = st.addedFilesMap := by
      rw [entryResult_addedFilesMap, if_neg]
      rintro ⟨hres, e⟩
      exact hno file (List.mem_cons_self _ _) e (e ▸ hres)
    rw [ih _ _ _ hrest (fun x hx e hm => hno x (List.mem_cons_of_mem _ hx) e
      (entryResult_allResFiles_subset k updateName file st hm)), hstep]

theorem exists_first_baseName (name : Str) (files : List File)
    (h : ∃ f ∈ files, f.baseName = name) :
    ∃ pre d post, files = pre ++ d :: post ∧ (∀ f ∈ pre, f.baseName ≠ name) ∧
      d.baseName = name := by
  induction files with
  | nil =>
    obtain ⟨f, hf, _⟩ := h
    simp at hf
  | cons x xs ih =>
    by_cases hx : x.baseName = name
    · exact ⟨[], x, xs, rfl, by simp, hx⟩
    · obtain ⟨f, hf, hfn⟩ := h
      have hf2 : f ∈ xs := by
        rcases List.mem_cons.1 hf with rfl | hf
        · exact absurd hfn hx
        · exact hf
      obtain ⟨pre, d, post, h1, h2, h3⟩ := ih ⟨f, hf2, hfn⟩
      refine ⟨x :: pre, d, post, by simp [h1], ?_, h3⟩
      intro g hg
      rcases List.mem_cons.1 hg with rfl | hg
      · exact hx
      · exact h2 g hg

/-! ## The two distribution indexers -/

theorem distEntries_eq (distName : Str) (files : List File) :
    ∀ (st : State) (n : Nat),
      distEntries distName files st n =
        ({ st with distFileMap := st.distFileMap ∪
            (files.map (fun f => distZipKey distName f.Name)).toFinset }, n + files.length) := by
  induction files with
  | nil =>
    intro st n
    simp [distEntries]
  | cons file rest ih =>
    intro st n
    simp only [distEntries, ih, List.map_cons, List.toFinset_cons, List.length_cons, distZipKey]
    refine Prod.ext ?_ (by simp; omega)
    apply State.ext_fields
    · rfl
    · rfl
    · ext p
      simp
    · rfl

theorem readDistZip_eq (k : Constants) (zipLocation : Str) (files : List File) (st : State) :
    readDistZip k zipLocation (some files) st =
      Except.ok { st with distFileMap := st.distFileMap ∪
        (files.map (fun f => distZipKey (zipName k zipLocation) f.Name)).toFinset } := by
  unfold readDistZip
  simp [distEntries_eq, pure, Except.pure]

theorem walkEntries_eq (distributionLocation : Str) (paths : List Str) :
    ∀ (st : State),
      walkEntries distributionLocation paths st =
        { st with distFileMap := st.distFileMap ∪
            (paths.map (fun p => distDirKey distributionLocation p)).toFinset } := by
  induction paths with
  | nil =>
    intro st
    simp [walkEntries]
  | cons path rest ih =>
    intro st
    simp only [walkEntries, ih, List.map_cons, List.toFinset_cons, distDirKey]
    apply State.ext_fields
    · rfl
    · rfl
    · ext p
      simp
    · rfl

/-! ## The reconciliation `validate` -/

theorem validate_ok_iff (st : State) (order : List Str) :
    validate st order = Except.ok () ↔
      ∀ p ∈ order, p ∈ st.distFileMap ∨ p ∈ st.addedFilesMap := by
  induction order with
  | nil => simp [validate]
  | cons updateLoc rest ih =>
    by_cases hd : updateLoc ∈ st.distFileMap
    · simp [validate, hd, ih]
    · by_cases ha : updateLoc ∈ st.addedFilesMap
      · simp [validate, hd, ha, ih]
      · simp [validate, hd, ha]

/-- C1: `validate` gives the pass verdict if and only if every path of `updatedFilesMap` is a
key of `distFileMap` or of `addedFilesMap`; in particular an empty `updatedFilesMap` always
passes, and the verdict is the same for every order in which the `range` loop visits the
keys. -/
theorem validate_pass_iff (st : State) (order : List Str)
    (horder : order.toFinset = st.updatedFilesMap) :
    (validate st order = Except.ok () ↔
      ∀ p ∈ st.updatedFilesMap, p ∈ st.distFileMap ∨ p ∈ st.addedFilesMap) ∧
    (st.updatedFilesMap = ∅ → validate st order = Except.ok ()) ∧
    (∀ order2 : List Str, order2.toFinset = st.updatedFilesMap →
      (validate st order2 = Except.ok () ↔ validate st order = Except.ok ())) := by
  have key : ∀ o : List Str, o.toFinset = st.updatedFilesMap →
      (validate st o = Except.ok () ↔
        ∀ p ∈ st.updatedFilesMap, p ∈ st.distFileMap ∨ p ∈ st.addedFilesMap) := by
    intro o ho
    rw [validate_ok_iff, ← ho]
    simp
  refine ⟨key order horder, ?_, ?_⟩
  · intro hempty
    rw [key order horder, hempty]
    intro p hp
    simp at hp
  · intro order2 h2
    rw [key order horder, key order2 h2]

/-- Witness of C1: two update keys, one found in the distribution and one declared added,
visited in one of the two possible orders. -/
theorem validate_pass_iff_witness :
    (validate ⟨∅, {"/a".toList, "/b".toList}, {"/a".toList}, {"/b".toList}⟩
        ["/b".toList, "/a".toList] = Except.ok () ↔
      ∀ p ∈ ({"/a".toList, "/b".toList} : Finset Str),
        p ∈ ({"/a".toList} : Finset Str) ∨ p ∈ ({"/b".toList} : Finset Str)) ∧
    validate ⟨∅, {"/a".toList, "/b".toList}, {"/a".toList}, {"/b".toList}⟩
        ["/b".toList, "/a".toList] = Except.ok () :=
  ⟨(validate_pass_iff ⟨∅, {"/a".toList, "/b".toList}, {"/a".toList}, {"/b".toList}⟩
      ["/b".toList, "/a".toList] (by decide)).1, by decide⟩

/-! ## C2: the mandatory resource files -/

/-- C2 as stated fails: the package `upd-1.zip` whose only entry is an undecodable
`upd-1/update-descriptor.yaml` passes the naming check, its entry passes the root-folder check
and is taken as a resource file (so no layout check applies), the license is the base name
of no entry, and yet `readUpdateZip` does not fail with the missing-resource failure: it
fails at line 226 with the unmarshalling failure. -/
theorem readUpdateZip_missing_resource_counterexample :
    stringsHasPrefix (zipName sampleConstants "upd-1.zip".toList)
        sampleConstants.UPDATE_NAME_PREFIX = true ∧
      (∀ f ∈ [File.mk "upd-1/update-descriptor.yaml".toList Descriptor.unmarshalError],
        rootFolderOk (zipName sampleConstants "upd-1.zip".toList) f ∧
          f.baseName ∈ (initializeState sampleConstants).allResFiles ∧
          f.baseName ≠ sampleConstants.LICENSE_FILE) ∧
      readUpdateZip sampleConstants "upd-1.zip".toList
          (some [File.mk "upd-1/update-descriptor.yaml".toList Descriptor.unmarshalError])
          (initializeState sampleConstants) = Except.error Failure.descriptorUnmarshal ∧
      readUpdateZip sampleConstants "upd-1.zip".toList
          (some [File.mk "upd-1/update-descriptor.yaml".toList Descriptor.unmarshalError])
          (initializeState sampleConstants) ≠ Except.error Failure.resourceFilesMissing := by
  decide

/-- C2 (amended): when the naming check passes and the loop passes on every entry (root-folder
check, layout check, and reading and decoding of the descriptor entry), and the mandatory
names differ from the optional ones, `readUpdateZip` fails with the missing-resource failure
if and only if one of the three mandatory names is the base name of no entry; when every
mandatory name is the base name of an entry it succeeds whether or not the optional names
occur; and after a success `allResFiles` is empty. -/
theorem readUpdateZip_missing_resource_iff (k : Constants) (zipLocation : Str)
    (files : List File)
    (hdistinct : ∀ m ∈ k.mandatory, m ∉ k.optional)
    (hnaming : stringsHasPrefix (zipName k zipLocation) k.UPDATE_NAME_PREFIX = true)
    (hloop : (scanEntries k (zipName k zipLocation) files (initializeState k) 0).toBool
      = true) :
    (readUpdateZip k zipLocation (some files) (initializeState k) =
        Except.error Failure.resourceFilesMissing ↔
      ∃ m ∈ k.mandatory, ∀ f ∈ files, f.baseName ≠ m) ∧
    ((∀ m ∈ k.mandatory, ∃ f ∈ files, f.baseName = m) →
      ∃ st, readUpdateZip k zipLocation (some files) (initializeState k) = Except.ok st) ∧
    (∀ st, readUpdateZip k zipLocation (some files) (initializeState k) = Except.ok st →
      st.allResFiles = ∅) := by
  cases hscan : scanEntries k (zipName k zipLocation) files (initializeState k) 0 with
  | error e => simp [hscan, Except.toBool] at hloop
  | ok r =>
    have hres := (scanEntries_ok_facts k _ files _ 0 r hscan).2.1
    have hiff := dropOptional_eq_empty_iff k files r.1 hdistinct hres
    rw [readUpdateZip_of_scan_ok k zipLocation files _ r hnaming hscan]
    by_cases hempty : (dropOptional k r.1).allResFiles = ∅
    · have hall := hiff.1 hempty
      simp only [hempty, if_true]
      refine ⟨?_, ?_, ?_⟩
      · constructor
        · intro h
          cases h
        · rintro ⟨m, hm, hno⟩
          obtain ⟨f, hf, hfm⟩ := hall m hm
          exact absurd hfm (hno f hf)
      · intro _
        exact ⟨_, rfl⟩
      · intro st hst
        cases hst
        exact hempty
    · simp only [hempty, if_false]
      refine ⟨?_, ?_, ?_⟩
      · constructor
        · intro _
          by_contra hno
          apply hempty
          apply hiff.2
          intro m hm
          by_contra hnone
          exact hno ⟨m, hm, fun f hf e => hnone ⟨f, hf, e⟩⟩
        · intro _
          trivial
      · intro hall
        exact absurd (hiff.2 hall) hempty
      · intro st hst
        cases hst

/-- Witness of C2: the license and the readme are there, the descriptor is not. -/
theorem readUpdateZip_missing_resource_iff_witness :
    readUpdateZip sampleConstants "upd-1.zip".toList
        (some [File.mk "upd-1/LICENSE.txt".toList Descriptor.readError,
          File.mk "upd-1/README.txt".toList Descriptor.readError])
        (initializeState sampleConstants) = Except.error Failure.resourceFilesMissing ↔
      ∃ m ∈ sampleConstants.mandatory,
        ∀ f ∈ [File.mk "upd-1/LICENSE.txt".toList Descriptor.readError,
          File.mk "upd-1/README.txt".toList Descriptor.readError], f.baseName ≠ m :=
  (readUpdateZip_missing_resource_iff sampleConstants "upd-1.zip".toList
    [File.mk "upd-1/LICENSE.txt".toList Descriptor.readError,
      File.mk "upd-1/README.txt".toList Descriptor.readError]
    (by decide) (by decide) (by decide)).1

/-! ## C3: the root folder -/

/-- C3: `readUpdateZip` succeeds only if every entry name contains a `/` and the segment before
its first `/` is the update name; on an entry that has no `/` or another first segment the
loop body fails with a root-folder failure in every state of the variables, hence whatever
the base name of the entry is and whether or not it is a resource file; and the scan of a
package in which such an entry is the first to fail a check ends with that failure. -/
theorem readUpdateZip_root_folder (k : Constants) (zipLocation : Str) (files : List File)
    (st0 : State) :
    (∀ st, readUpdateZip k zipLocation (some files) st0 = Except.ok st →
      ∀ f ∈ files, '/' ∈ f.Name ∧
        f.Name.takeWhile (fun c => c != '/') = zipName k zipLocation) ∧
    (∀ (file : File) (st : State),
      ¬ ('/' ∈ file.Name ∧ file.Name.takeWhile (fun c => c != '/') = zipName k zipLocation) →
      ∃ e, scanEntry k (zipName k zipLocation) file st = Except.error e ∧
        e.isStructure = true) ∧
    (∀ (pre post : List File) (file : File), files = pre ++ file :: post →
      ¬ ('/' ∈ file.Name ∧ file.Name.takeWhile (fun c => c != '/') = zipName k zipLocation) →
      stringsHasPrefix (zipName k zipLocation) k.UPDATE_NAME_PREFIX = true →
      (scanEntries k (zipName k zipLocation) pre st0 0).toBool = true →
      ∃ e, readUpdateZip k zipLocation (some files) st0 = Except.error e ∧
        e.isStructure = true) := by
  refine ⟨?_, ?_, ?_⟩
  · intro st hst f hf
    rw [← rootFolderOk_iff]
    by_cases hnaming : stringsHasPrefix (zipName k zipLocation) k.UPDATE_NAME_PREFIX = true
    · cases hscan : scanEntries k (zipName k zipLocation) files st0 0 with
      | error e =>
        rw [readUpdateZip_of_scan_error k zipLocation files st0 e hnaming hscan] at hst
        cases hst
      | ok r => exact (scanEntries_ok_facts k _ files st0 0 r hscan).1 f hf
    · rw [readUpdateZip_of_naming k zipLocation _ st0 (by simpa using hnaming)] at hst
      cases hst
  · intro file st hbad
    rw [← rootFolderOk_iff] at hbad
    exact scanEntry_structure k _ file st hbad
  · intro pre post file hfiles hbad hnaming hpre
    rw [← rootFolderOk_iff] at hbad
    cases hscan : scanEntries k (zipName k zipLocation) pre st0 0 with
    | error e => simp [hscan, Except.toBool] at hpre
    | ok r =>
      obtain ⟨e, he, hstruct⟩ := scanEntry_structure k (zipName k zipLocation) file r.1 hbad
      refine ⟨e, ?_, hstruct⟩
      apply readUpdateZip_of_scan_error k zipLocation files st0 e hnaming
      rw [hfiles, scanEntries_append, hscan]
      simp [bind, Except.bind, scanEntries, he]

/-- Witness of C3: the second entry lies in a folder `wrong`, and it has the base name of the
license. -/
theorem readUpdateZip_root_folder_witness :
    ∃ e, readUpdateZip sampleConstants "upd-1.zip".toList
        (some [File.mk "upd-1/README.txt".toList Descriptor.readError,
          File.mk "wrong/LICENSE.txt".toList Descriptor.readError])
        (initializeState sampleConstants) = Except.error e ∧ e.isStructure = true :=
  (readUpdateZip_root_folder sampleConstants "upd-1.zip".toList
    [File.mk "upd-1/README.txt".toList Descriptor.readError,
      File.mk "wrong/LICENSE.txt".toList Descriptor.readError]
    (initializeState sampleConstants)).2.2
    [File.mk "upd-1/README.txt".toList Descriptor.readError] []
    (File.mk "wrong/LICENSE.txt".toList Descriptor.readError) rfl (by decide) (by decide)
    (by decide)

/-! ## C4: the layout check -/

/-- C4 (failing input): the entry `upd-1/lib/contentroot/x.jar` is not a resource file and
does not begin with `upd-1/contentroot/`, yet the scan succeeds and records it, under its
whole name, in `updatedFilesMap`: line 193 only tests that the name contains the
content-root folder name somewhere. -/
theorem readUpdateZip_layout_failing_input :
    stringsHasPrefix "upd-1/lib/contentroot/x.jar".toList "upd-1/contentroot/".toList = false ∧
      File.baseName (File.mk "upd-1/lib/contentroot/x.jar".toList Descriptor.readError) ∉
        (initializeState sampleConstants).allResFiles ∧
      readUpdateZip sampleConstants "upd-1.zip".toList
          (some [File.mk "upd-1/LICENSE.txt".toList Descriptor.readError,
            File.mk "upd-1/README.txt".toList Descriptor.readError,
            File.mk "upd-1/update-descriptor.yaml".toList (Descriptor.parsed []),
            File.mk "upd-1/lib/contentroot/x.jar".toList Descriptor.readError])
          (initializeState sampleConstants) =
        Except.ok ⟨∅, {"upd-1/lib/contentroot/x.jar".toList}, ∅, ∅⟩ := by
  decide

/-! ## C5: the order of the entries -/

/-- C5 as stated fails: with the license at the top level and a second `LICENSE.txt` under the
content root, the scan succeeds when the top-level one comes first and fails with the
layout failure when it comes last. -/
theorem readUpdateZip_perm_counterexample :
    List.Perm
        [File.mk "upd-1/LICENSE.txt".toList Descriptor.readError,
          File.mk "upd-1/README.txt".toList Descriptor.readError,
          File.mk "upd-1/update-descriptor.yaml".toList (Descriptor.parsed []),
          File.mk "upd-1/contentroot/LICENSE.txt".toList Descriptor.readError]
        [File.mk "upd-1/contentroot/LICENSE.txt".toList Descriptor.readError,
          File.mk "upd-1/README.txt".toList Descriptor.readError,
          File.mk "upd-1/update-descriptor.yaml".toList (Descriptor.parsed []),
          File.mk "upd-1/LICENSE.txt".toList Descriptor.readError] ∧
      readUpdateZip sampleConstants "upd-1.zip".toList
          (some [File.mk "upd-1/LICENSE.txt".toList Descriptor.readError,
            File.mk "upd-1/README.txt".toList Descriptor.readError,
            File.mk "upd-1/update-descriptor.yaml".toList (Descriptor.parsed []),
            File.mk "upd-1/contentroot/LICENSE.txt".toList Descriptor.readError])
          (initializeState sampleConstants) =
        Except.ok ⟨∅, {"/LICENSE.txt".toList}, ∅, ∅⟩ ∧
      readUpdateZip sampleConstants "upd-1.zip".toList
          (some [File.mk "upd-1/contentroot/LICENSE.txt".toList Descriptor.readError,
            File.mk "upd-1/README.txt".toList Descriptor.readError,
            File.mk "upd-1/update-descriptor.yaml".toList (Descriptor.parsed []),
            File.mk "upd-1/LICENSE.txt".toList Descriptor.readError])
          (initializeState sampleConstants) =
        Except.error (Failure.notInCarbonHome "upd-1/LICENSE.txt".toList) := by
  decide

/-- C5 (amended): when no two entries of the package have the same base name while that name
is a key of `allResFiles`, `readUpdateZip` has the same outcome on every permutation of the
entries: it succeeds on both or fails on both, and on success the four variables, among them
`updatedFilesMap`, `addedFilesMap` and the residual `allResFiles`, are the same. -/
theorem readUpdateZip_perm (k : Constants) (zipLocation : Str) (files files2 : List File)
    (st0 : State) (hperm : files.Perm files2)
    (hshared : NoSharedResourceName st0.allResFiles files) :
    (readUpdateZip k zipLocation (some files) st0).toOption =
      (readUpdateZip k zipLocation (some files2) st0).toOption := by
  by_cases hnaming : stringsHasPrefix (zipName k zipLocation) k.UPDATE_NAME_PREFIX = true
  · have hscan := scanEntries_perm k (zipName k zipLocation) files files2 st0 0 hperm hshared
    cases hs1 : scanEntries k (zipName k zipLocation) files st0 0 with
    | ok r1 =>
      cases hs2 : scanEntries k (zipName k zipLocation) files2 st0 0 with
      | ok r2 =>
        rw [hs1, hs2] at hscan
        have hr : r1 = r2 := by simpa [Except.toOption] using hscan
        rw [readUpdateZip_of_scan_ok k zipLocation files st0 r1 hnaming hs1,
          readUpdateZip_of_scan_ok k zipLocation files2 st0 r2 hnaming hs2, hr]
      | error e2 =>
        rw [hs1, hs2] at hscan
        simp [Except.toOption] at hscan
    | error e1 =>
      cases hs2 : scanEntries k (zipName k zipLocation) files2 st0 0 with
      | ok r2 =>
        rw [hs1, hs2] at hscan
        simp [Except.toOption] at hscan
      | error e2 =>
        rw [readUpdateZip_of_scan_error k zipLocation files st0 e1 hnaming hs1,
          readUpdateZip_of_scan_error k zipLocation files2 st0 e2 hnaming hs2]
        rfl
  · have hn : stringsHasPrefix (zipName k zipLocation) k.UPDATE_NAME_PREFIX = false := by
      simpa using hnaming
    rw [readUpdateZip_of_naming k zipLocation _ st0 hn,
      readUpdateZip_of_naming k zipLocation _ st0 hn]

/-- Witness of C5: the four entries of a well-formed package in two different orders. -/
theorem readUpdateZip_perm_witness :
    (readUpdateZip sampleConstants "upd-1.zip".toList
        (some [File.mk "upd-1/LICENSE.txt".toList Descriptor.readError,
          File.mk "upd-1/README.txt".toList Descriptor.readError,
          File.mk "upd-1/update-descriptor.yaml".toList (Descriptor.parsed []),
          File.mk "upd-1/contentroot/app/plugin.jar".toList Descriptor.readError])
        (initializeState sampleConstants)).toOption =
      (readUpdateZip sampleConstants "upd-1.zip".toList
        (some [File.mk "upd-1/contentroot/app/plugin.jar".toList Descriptor.readError,
          File.mk "upd-1/update-descriptor.yaml".toList (Descriptor.parsed []),
          File.mk "upd-1/README.txt".toList Descriptor.readError,
          File.mk "upd-1/LICENSE.txt".toList Descriptor.readError])
        (initializeState sampleConstants)).toOption :=
  readUpdateZip_perm sampleConstants "upd-1.zip".toList _ _ (initializeState sampleConstants)
    (by decide) (by decide)

/-! ## C6: the form of the keys -/

/-- C6 as stated fails: on the package and the distributions of scenario A the key recorded
for `upd-1/contentroot/app/plugin.jar`, for `dist/app/plugin.jar` in `dist.zip` and for the
walked path `dist/app/plugin.jar` of the directory `dist` is `/app/plugin.jar`, which begins
with the path separator. -/
theorem inserted_keys_counterexample :
    readUpdateZip sampleConstants "upd-1.zip".toList
        (some [File.mk "upd-1/LICENSE.txt".toList Descriptor.readError,
          File.mk "upd-1/README.txt".toList Descriptor.readError,
          File.mk "upd-1/update-descriptor.yaml".toList (Descriptor.parsed []),
          File.mk "upd-1/contentroot/app/plugin.jar".toList Descriptor.readError])
        (initializeState sampleConstants) =
      Except.ok ⟨∅, {"/app/plugin.jar".toList}, ∅, ∅⟩ ∧
    readDistZip sampleConstants "dist.zip".toList
        (some [File.mk "dist/app/plugin.jar".toList Descriptor.readError]) ⟨∅, ∅, ∅, ∅⟩ =
      Except.ok ⟨∅, ∅, {"/app/plugin.jar".toList}, ∅⟩ ∧
    readDistDir "dist".toList
        (some [walkedPath "dist".toList [], walkedPath "dist".toList ["app".toList],
          walkedPath "dist".toList ["app".toList, "plugin.jar".toList]]) ⟨∅, ∅, ∅, ∅⟩ =
      Except.ok ⟨∅, ∅, {"/app/plugin.jar".toList, "/app".toList, []}, ∅⟩ ∧
    "/app/plugin.jar".toList.head? = some '/' := by
  decide

/-- C6 (amended): every key that `readUpdateZip` adds to `updatedFilesMap`, and that
`readDistZip` or `readDistDir` adds to `distFileMap`, is the key of an entry (of a walked
path), and for an entry `N/C/q`, an entry `D/q` and a walked path `L/q` that key is `/q`:
the root is stripped and the key begins with the separator `/`. -/
theorem inserted_keys (k : Constants) (updateLocation distLocation distributionLocation : Str)
    (files distFiles : List File) (paths : List Str) (s0 s1 t0 t1 u0 u1 : State)
    (hupdate : readUpdateZip k updateLocation (some files) s0 = Except.ok s1)
    (hzip : readDistZip k distLocation (some distFiles) t0 = Except.ok t1)
    (hdir : readDistDir distributionLocation (some paths) u0 = Except.ok u1) :
    (∀ p ∈ s1.updatedFilesMap, p ∈ s0.updatedFilesMap ∨
      ∃ f ∈ files, p = updateKey k (zipName k updateLocation) f.Name ∧
        ∀ q, f.Name = zipName k updateLocation ++ '/' :: (k.CARBON_HOME ++ '/' :: q) →
          p = '/' :: q) ∧
    (∀ p ∈ t1.distFileMap, p ∈ t0.distFileMap ∨
      ∃ f ∈ distFiles, p = distZipKey (zipName k distLocation) f.Name ∧
        ∀ q, f.Name = zipName k distLocation ++ '/' :: q → p = '/' :: q) ∧
    (∀ p ∈ u1.distFileMap, p ∈ u0.distFileMap ∨
      ∃ path ∈ paths, p = distDirKey distributionLocation path ∧
        ∀ q, path = distributionLocation ++ '/' :: q → p = '/' :: q) := by
  refine ⟨?_, ?_, ?_⟩
  · intro p hp
    obtain ⟨_, r, hscan, _, hst⟩ := (readUpdateZip_ok_iff k updateLocation files s0 s1).1 hupdate
    subst hst
    rcases (scanEntries_ok_maps k _ files s0 0 r hscan).2.2.1 p hp with h | ⟨f, hf, _, hpf⟩
    · exact Or.inl h
    · refine Or.inr ⟨f, hf, hpf, ?_⟩
      intro q hq
      rw [hpf, hq, updateKey_under_root]
  · intro p hp
    rw [readDistZip_eq] at hzip
    cases hzip
    simp only [Finset.mem_union, List.mem_toFinset, List.mem_map] at hp
    rcases hp with h | ⟨f, hf, hpf⟩
    · exact Or.inl h
    · refine Or.inr ⟨f, hf, hpf.symm, ?_⟩
      intro q hq
      rw [← hpf, hq, distZipKey, stringsTrimPrefix_append]
  · intro p hp
    simp only [readDistDir, pure, Except.pure, Except.ok.injEq] at hdir
    subst hdir
    rw [walkEntries_eq] at hp
    simp only [Finset.mem_union, List.mem_toFinset, List.mem_map] at hp
    rcases hp with h | ⟨path, hpath, hpp⟩
    · exact Or.inl h
    · refine Or.inr ⟨path, hpath, hpp.symm, ?_⟩
      intro q hq
      rw [← hpp, hq, distDirKey, stringsTrimPrefix_append]

/-- Witness of C6: the update package and the distribution archive of scenario A, and the
distribution as the directory `dist`. -/
theorem inserted_keys_witness :
    "/app/plugin.jar".toList ∈ (∅ : Finset Str) ∨
      ∃ f ∈ [File.mk "dist/app/plugin.jar".toList Descriptor.readError],
        "/app/plugin.jar".toList = distZipKey (zipName sampleConstants "dist.zip".toList) f.Name ∧
          ∀ q, f.Name = zipName sampleConstants "dist.zip".toList ++ '/' :: q →
            "/app/plugin.jar".toList = '/' :: q :=
  (inserted_keys sampleConstants "upd-1.zip".toList "dist.zip".toList "dist".toList
    [File.mk "upd-1/LICENSE.txt".toList Descriptor.readError,
      File.mk "upd-1/README.txt".toList Descriptor.readError,
      File.mk "upd-1/update-descriptor.yaml".toList (Descriptor.parsed []),
      File.mk "upd-1/contentroot/app/plugin.jar".toList Descriptor.readError]
    [File.mk "dist/app/plugin.jar".toList Descriptor.readError]
    ["dist".toList, "dist/app".toList, "dist/app/plugin.jar".toList]
    (initializeState sampleConstants) ⟨∅, {"/app/plugin.jar".toList}, ∅, ∅⟩
    ⟨∅, ∅, ∅, ∅⟩ ⟨∅, ∅, {"/app/plugin.jar".toList}, ∅⟩
    ⟨∅, ∅, ∅, ∅⟩ ⟨∅, ∅, {"/app/plugin.jar".toList, "/app".toList, []}, ∅⟩
    (by decide) (by decide) (by decide)).2.1 "/app/plugin.jar".toList (by decide)

/-! ## C7: the keys of one installed location -/

/-- C7 (failing input): with the distribution given as the directory `dist/`, the walk passes
`dist/app/plugin.jar` for the file `app/plugin.jar` and line 358 turns it into the key
`app/plugin.jar`, whereas the scanner and the archive indexer give `/app/plugin.jar`; the run
on the package of scenario A then ends with the reconciliation failure although the file is
in the distribution. -/
theorem keys_failing_input :
    updateKey sampleConstants "upd-1".toList "upd-1/contentroot/app/plugin.jar".toList =
      "/app/plugin.jar".toList ∧
    distZipKey "dist".toList "dist/app/plugin.jar".toList = "/app/plugin.jar".toList ∧
    walkedPath "dist/".toList ["app".toList, "plugin.jar".toList] =
      "dist/app/plugin.jar".toList ∧
    distDirKey "dist/".toList (walkedPath "dist/".toList ["app".toList, "plugin.jar".toList]) =
      "app/plugin.jar".toList ∧
    readUpdateZip sampleConstants "upd-1.zip".toList
        (some [File.mk "upd-1/LICENSE.txt".toList Descriptor.readError,
          File.mk "upd-1/README.txt".toList Descriptor.readError,
          File.mk "upd-1/update-descriptor.yaml".toList (Descriptor.parsed []),
          File.mk "upd-1/contentroot/app/plugin.jar".toList Descriptor.readError])
        (initializeState sampleConstants) =
      Except.ok ⟨∅, {"/app/plugin.jar".toList}, ∅, ∅⟩ ∧
    readDistDir "dist/".toList
        (some [walkedPath "dist/".toList [], walkedPath "dist/".toList ["app".toList],
          walkedPath "dist/".toList ["app".toList, "plugin.jar".toList]])
        ⟨∅, {"/app/plugin.jar".toList}, ∅, ∅⟩ =
      Except.ok ⟨∅, {"/app/plugin.jar".toList}, {"app/plugin.jar".toList, "app".toList, []}, ∅⟩ ∧
    validate ⟨∅, {"/app/plugin.jar".toList}, {"app/plugin.jar".toList, "app".toList, []}, ∅⟩
        ["/app/plugin.jar".toList] =
      Except.error (Failure.notInDistribution "/app/plugin.jar".toList) := by
  decide

/-! ## C8: stripping twice -/

/-- C8 as stated fails: the indexer accepts the entry `distdist/app` of `dist.zip` and the
scanner accepts the entry `upd-1/contentrootupd-1/contentroot/x` of `upd-1.zip`; stripping
the root from the keys they record strips a second time. -/
theorem strip_idempotent_counterexample :
    readDistZip sampleConstants "dist.zip".toList
        (some [File.mk "distdist/app".toList Descriptor.readError]) ⟨∅, ∅, ∅, ∅⟩ =
      Except.ok ⟨∅, ∅, {"dist/app".toList}, ∅⟩ ∧
    distZipKey "dist".toList (distZipKey "dist".toList "distdist/app".toList) = "/app".toList ∧
    distZipKey "dist".toList "distdist/app".toList = "dist/app".toList ∧
    scanEntry sampleConstants "upd-1".toList
        (File.mk "upd-1/contentrootupd-1/contentroot/x".toList Descriptor.readError)
        ⟨∅, ∅, ∅, ∅⟩ =
      Except.ok ⟨∅, {"upd-1/contentroot/x".toList}, ∅, ∅⟩ ∧
    updateKey sampleConstants "upd-1".toList
        (updateKey sampleConstants "upd-1".toList
          "upd-1/contentrootupd-1/contentroot/x".toList) = "/x".toList := by
  decide

/-- C8 (amended): for a raw path `r/q` that lies under its root `r`, where `r` does not begin
with `/` (for the scanner `r` is `N/C` with a non-empty update name `N`), stripping the root
from the stripped key returns that key unchanged. -/
theorem strip_idempotent (k : Constants) (updateName distName distributionLocation q : Str)
    (hN : updateName ≠ [] ∧ updateName.head? ≠ some '/')
    (hD : distName.head? ≠ some '/')
    (hL : distributionLocation.head? ≠ some '/') :
    updateKey k updateName
        (updateKey k updateName (updateName ++ '/' :: (k.CARBON_HOME ++ '/' :: q))) =
      updateKey k updateName (updateName ++ '/' :: (k.CARBON_HOME ++ '/' :: q)) ∧
    distZipKey distName (distZipKey distName (distName ++ '/' :: q)) =
      distZipKey distName (distName ++ '/' :: q) ∧
    distDirKey distributionLocation
        (distDirKey distributionLocation (distributionLocation ++ '/' :: q)) =
      distDirKey distributionLocation (distributionLocation ++ '/' :: q) := by
  refine ⟨?_, ?_, ?_⟩
  · rw [updateKey_under_root]
    unfold updateKey
    apply stringsTrimPrefix_of_head
    obtain ⟨hne, hhead⟩ := hN
    cases updateName with
    | nil => exact absurd rfl hne
    | cons c cs => simpa using hhead
  · exact stringsTrimPrefix_idempotent distName q hD
  · exact stringsTrimPrefix_idempotent distributionLocation q hL

/-- Witness of C8: the roots and the installed location of scenario A. -/
theorem strip_idempotent_witness :
    distZipKey "dist".toList (distZipKey "dist".toList ("dist".toList ++ '/' :: "app".toList)) =
      distZipKey "dist".toList ("dist".toList ++ '/' :: "app".toList) :=
  (strip_idempotent sampleConstants "upd-1".toList "dist".toList "dist".toList "app".toList
    (by decide) (by decide) (by decide)).2.1

/-! ## C9: the files declared as added -/

/-- C9 as stated fails on scenario E: the descriptor lists `app/new.jar`, the key recorded for
`upd-1/contentroot/app/new.jar` is `/app/new.jar`, the distribution is empty, and `validate`
ends with the reconciliation failure. -/
theorem declared_added_counterexample :
    readUpdateZip sampleConstants "upd-1.zip".toList
        (some [File.mk "upd-1/LICENSE.txt".toList Descriptor.readError,
          File.mk "upd-1/README.txt".toList Descriptor.readError,
          File.mk "upd-1/update-descriptor.yaml".toList
            (Descriptor.parsed ["app/new.jar".toList]),
          File.mk "upd-1/contentroot/app/new.jar".toList Descriptor.readError])
        (initializeState sampleConstants) =
      Except.ok ⟨∅, {"/app/new.jar".toList}, ∅, {"app/new.jar".toList}⟩ ∧
    readDistZip sampleConstants "dist.zip".toList (some [])
        ⟨∅, {"/app/new.jar".toList}, ∅, {"app/new.jar".toList}⟩ =
      Except.ok ⟨∅, {"/app/new.jar".toList}, ∅, {"app/new.jar".toList}⟩ ∧
    validate ⟨∅, {"/app/new.jar".toList}, ∅, {"app/new.jar".toList}⟩ ["/app/new.jar".toList] =
      Except.error (Failure.notInDistribution "/app/new.jar".toList) := by
  decide

theorem descriptor_mem_initializeState (k : Constants) :
    k.UPDATE_DESCRIPTOR_FILE ∈ (initializeState k).allResFiles := by
  simp [initializeState]

/-- C9 (amended): in a package that passes the scan and contains the content file `N/C/q`
(whose base name is not a resource name), if the added-files list of the descriptor (the
first entry with the base name of the descriptor) contains the string `/q`, the key of the
content file with its leading separator, then after the distribution is indexed that key is
in `updatedFilesMap` and in `addedFilesMap`, and `validate` passes when every other key of
`updatedFilesMap` is in `distFileMap` or `addedFilesMap`. -/
theorem declared_added_exemption (k : Constants) (zipLocation distLocation : Str)
    (pre post distFiles : List File) (paths : List Str) (d content : File)
    (Added_files : List Str) (q : Str) (st1 st2 : State) (order : List Str)
    (hscan : readUpdateZip k zipLocation (some (pre ++ d :: post)) (initializeState k) =
      Except.ok st1)
    (hfirst : ∀ f ∈ pre, f.baseName ≠ k.UPDATE_DESCRIPTOR_FILE)
    (hd : d.baseName = k.UPDATE_DESCRIPTOR_FILE)
    (hparsed : d.descriptor = Descriptor.parsed Added_files)
    (hlisted : ('/' :: q) ∈ Added_files)
    (hcontent : content ∈ pre ++ d :: post)
    (hname : content.Name = zipName k zipLocation ++ '/' :: (k.CARBON_HOME ++ '/' :: q))
    (hleaf : content.baseName ∉ (initializeState k).allResFiles)
    (hdist : readDistZip k distLocation (some distFiles) st1 = Except.ok st2 ∨
      readDistDir distLocation (some paths) st1 = Except.ok st2)
    (horder : order.toFinset = st2.updatedFilesMap)
    (hothers : ∀ p ∈ st2.updatedFilesMap, p ≠ '/' :: q →
      p ∈ st2.distFileMap ∨ p ∈ st2.addedFilesMap) :
    ('/' :: q) ∈ st2.updatedFilesMap ∧ ('/' :: q) ∈ st2.addedFilesMap ∧
      validate st2 order = Except.ok () := by
  obtain ⟨_, r, hr, _, hst1⟩ := (readUpdateZip_ok_iff k zipLocation _ _ st1).1 hscan
  have hu12 : st2.updatedFilesMap = r.1.updatedFilesMap ∧
      st2.addedFilesMap = r.1.addedFilesMap := by
    rcases hdist with h | h
    · rw [readDistZip_eq] at h
      cases h
      subst hst1
      exact ⟨rfl, rfl⟩
    · simp only [readDistDir, pure, Except.pure, Except.ok.injEq] at h
      subst h
      rw [walkEntries_eq]
      subst hst1
      exact ⟨rfl, rfl⟩
  have hkey : ('/' :: q) ∈ r.1.updatedFilesMap := by
    have := (scanEntries_ok_maps k _ _ _ 0 r hr).2.2.2 content hcontent hleaf
    rwa [hname, updateKey_under_root] at this
  have hadded : ('/' :: q) ∈ r.1.addedFilesMap := by
    rw [scanEntries_append] at hr
    cases hpre : scanEntries k (zipName k zipLocation) pre (initializeState k) 0 with
    | error e => simp [hpre, bind, Except.bind] at hr
    | ok r1 =>
      simp only [hpre, bind, Except.bind] at hr
      obtain ⟨_, hpost⟩ := (scanEntries_cons_ok k _ d post r1.1 r1.2 r).1 hr
      have hres : d.baseName ∈ r1.1.allResFiles := by
        rw [(scanEntries_ok_facts k _ pre _ 0 r1 hpre).2.1, hd]
        simp only [Finset.mem_sdiff, List.mem_toFinset, List.mem_map, not_exists, not_and]
        exact ⟨descriptor_mem_initializeState k, fun f hf => hfirst f hf⟩
      apply (scanEntries_ok_maps k _ post _ _ r hpost).2.1
      rw [entryResult_addedFilesMap, if_pos ⟨hres, hd⟩, hparsed]
      simp [Descriptor.added, hlisted]
  have hadded2 : ('/' :: q) ∈ st2.addedFilesMap := by
    rw [hu12.2]
    exact hadded
  refine ⟨by rw [hu12.1]; exact hkey, hadded2, ?_⟩
  rw [validate_ok_iff]
  intro p hp
  have hp2 : p ∈ st2.updatedFilesMap := by
    rw [← horder]
    exact List.mem_toFinset.2 hp
  by_cases hpq : p = '/' :: q
  · right
    rw [hpq]
    exact hadded2
  · exact hothers p hp2 hpq

/-- Witness of C9: scenario E with `/app/new.jar` in the added-files list. -/
theorem declared_added_exemption_witness :
    "/app/new.jar".toList ∈
        (State.mk ∅ {"/app/new.jar".toList} ∅ {"/app/new.jar".toList}).updatedFilesMap ∧
      "/app/new.jar".toList ∈
        (State.mk ∅ {"/app/new.jar".toList} ∅ {"/app/new.jar".toList}).addedFilesMap ∧
      validate ⟨∅, {"/app/new.jar".toList}, ∅, {"/app/new.jar".toList}⟩
        ["/app/new.jar".toList] = Except.ok () :=
  declared_added_exemption sampleConstants "upd-1.zip".toList "dist.zip".toList
    [File.mk "upd-1/LICENSE.txt".toList Descriptor.readError,
      File.mk "upd-1/README.txt".toList Descriptor.readError]
    [File.mk "upd-1/contentroot/app/new.jar".toList Descriptor.readError] [] []
    (File.mk "upd-1/update-descriptor.yaml".toList (Descriptor.parsed ["/app/new.jar".toList]))
    (File.mk "upd-1/contentroot/app/new.jar".toList Descriptor.readError)
    ["/app/new.jar".toList] "app/new.jar".toList
    ⟨∅, {"/app/new.jar".toList}, ∅, {"/app/new.jar".toList}⟩
    ⟨∅, {"/app/new.jar".toList}, ∅, {"/app/new.jar".toList}⟩ ["/app/new.jar".toList]
    (by decide) (by decide) (by decide) rfl (by decide) (by decide) (by decide) (by decide)
    (Or.inl (by decide)) (by decide) (by decide)

/-! ## C10: a well-formed package against a distribution archive -/

theorem dropOptional_eq_empty_of_mandatory (k : Constants) (files : List File) (st : State)
    (hst : st.allResFiles =
      (initializeState k).allResFiles \ (files.map File.baseName).toFinset)
    (hall : ∀ m ∈ k.mandatory, ∃ f ∈ files, f.baseName = m) :
    (dropOptional k st).allResFiles = ∅ := by
  rw [Finset.eq_empty_iff_forall_not_mem]
  simp only [Constants.mandatory, List.mem_cons, List.mem_singleton, List.not_mem_nil,
    or_false, forall_eq_or_imp, forall_eq] at hall
  obtain ⟨h1, h2, h3⟩ := hall
  intro p
  simp only [dropOptional, hst, initializeState, Finset.mem_erase, Finset.mem_sdiff,
    Finset.mem_insert, Finset.not_mem_empty, or_false, List.mem_toFinset, List.mem_map, ne_eq,
    not_and, not_not]
  intro hp1 hp2 hp3
  rcases hp3 with rfl | rfl | rfl | rfl | rfl
  · exact absurd rfl hp2
  · exact h3
  · exact h2
  · exact absurd rfl hp1
  · exact h1

theorem mandatory_subset_initializeState (k : Constants) :
    ∀ m ∈ k.mandatory, m ∈ (initializeState k).allResFiles := by
  simp [Constants.mandatory, initializeState]

/-- C10: for an update package whose name carries the prefix and whose entries are, in any
order, one top-level license, readme and (decodable) descriptor plus content files `N/C/q`
with base names that are not resource names, and for a distribution archive that has an
entry `D/q` for each of them, `readUpdateZip`, `readDistZip` and `validate` all succeed,
whatever the added-files list of the descriptor is (the empty one included). The resource
names are taken to be plain, pairwise different file names. -/
theorem end_to_end_pass (k : Constants) (updateLocation distLocation : Str)
    (files contents distFiles : List File) (lic readme desc : File)
    (hnames : ∀ m ∈ k.mandatory, m ≠ [] ∧ '/' ∉ m)
    (hnodup : k.mandatory.Nodup)
    (hnaming : stringsHasPrefix (zipName k updateLocation) k.UPDATE_NAME_PREFIX = true)
    (hN : '/' ∉ zipName k updateLocation)
    (hfiles : files.Perm (lic :: readme :: desc :: contents))
    (hlic : lic.Name = zipName k updateLocation ++ '/' :: k.LICENSE_FILE)
    (hreadme : readme.Name = zipName k updateLocation ++ '/' :: k.README_FILE)
    (hdesc : desc.Name = zipName k updateLocation ++ '/' :: k.UPDATE_DESCRIPTOR_FILE)
    (hparsed : desc.descriptor.isParsed = true)
    (hcontents : ∀ c ∈ contents, c.baseName ∉ (initializeState k).allResFiles ∧
      ∃ q, c.Name = zipName k updateLocation ++ '/' :: (k.CARBON_HOME ++ '/' :: q) ∧
        ∃ f ∈ distFiles, f.Name = zipName k distLocation ++ '/' :: q) :
    ∃ st1 st2, readUpdateZip k updateLocation (some files) (initializeState k) = Except.ok st1 ∧
      readDistZip k distLocation (some distFiles) st1 = Except.ok st2 ∧
      ∀ order : List Str, order.toFinset = st2.updatedFilesMap →
        validate st2 order = Except.ok () := by
  -- the base names of the three resource files
  simp only [Constants.mandatory, List.mem_cons, List.mem_singleton, List.not_mem_nil,
    or_false, forall_eq_or_imp, forall_eq] at hnames
  obtain ⟨⟨hl1, hl2⟩, ⟨hr1, hr2⟩, ⟨hd1, hd2⟩⟩ := hnames
  simp only [Constants.mandatory, List.nodup_cons, List.mem_cons, List.mem_singleton,
    List.not_mem_nil, or_false, not_or, List.nodup_nil, and_true, not_false_eq_true] at hnodup
  obtain ⟨⟨hlr, hld⟩, hrd⟩ := hnodup
  have blic : lic.baseName = k.LICENSE_FILE := by
    rw [File.baseName, hlic, pathBase_append _ _ hl1 hl2]
  have breadme : readme.baseName = k.README_FILE := by
    rw [File.baseName, hreadme, pathBase_append _ _ hr1 hr2]
  have bdesc : desc.baseName = k.UPDATE_DESCRIPTOR_FILE := by
    rw [File.baseName, hdesc, pathBase_append _ _ hd1 hd2]
  have hmand := mandatory_subset_initializeState k
  simp only [Constants.mandatory, List.mem_cons, List.mem_singleton, List.not_mem_nil,
    or_false, forall_eq_or_imp, forall_eq] at hmand
  obtain ⟨ml, mr, md⟩ := hmand
  -- every entry is one of the four kinds
  have hkind : ∀ f ∈ files, f = lic ∨ f = readme ∨ f = desc ∨ f ∈ contents := by
    intro f hf
    have := hfiles.mem_iff.1 hf
    simpa [List.mem_cons] using this
  -- no two entries share a resource name
  have hshared0 : NoSharedResourceName (initializeState k).allResFiles
      (lic :: readme :: desc :: contents) := by
    unfold NoSharedResourceName
    refine List.pairwise_cons.2 ⟨?_, List.pairwise_cons.2 ⟨?_, List.pairwise_cons.2 ⟨?_, ?_⟩⟩⟩
    · intro g hg e
      rcases List.mem_cons.1 hg with rfl | hg
      · exact absurd (blic.symm.trans (e.trans breadme)) hlr
      · rcases List.mem_cons.1 hg with rfl | hg
        · exact absurd (blic.symm.trans (e.trans bdesc)) hld
        · rw [e]
          exact (hcontents g hg).1
    · intro g hg e
      rcases List.mem_cons.1 hg with rfl | hg
      · exact absurd (breadme.symm.trans (e.trans bdesc)) hrd
      · rw [e]
        exact (hcontents g hg).1
    · intro g hg e
      rw [e]
      exact (hcontents g hg).1
    · refine List.Pairwise.imp_mem.2 (List.pairwise_of_forall ?_)
      intro f g hf _ _
      exact (hcontents f hf).1
  have hshared : NoSharedResourceName (initializeState k).allResFiles files :=
    NoSharedResourceName_perm _ _ _ hfiles.symm hshared0
  -- every entry passes the loop body
  have hroot : ∀ rest : Str, ∀ f : File, f.Name = zipName k updateLocation ++ '/' :: rest →
      rootFolderOk (zipName k updateLocation) f := by
    intro rest f hf
    exact (rootFolder_check_iff f.Name _).2 ⟨hN, rest, hf⟩
  have hentry : ∀ f ∈ files, entryOk k (zipName k updateLocation)
      (initializeState k).allResFiles f := by
    intro f hf
    rcases hkind f hf with rfl | rfl | rfl | hc
    · exact ⟨hroot _ _ hlic, fun h => absurd (blic ▸ ml) h,
        fun _ e => absurd (blic.symm.trans e) hld⟩
    · exact ⟨hroot _ _ hreadme, fun h => absurd (breadme ▸ mr) h,
        fun _ e => absurd (breadme.symm.trans e) hrd⟩
    · exact ⟨hroot _ _ hdesc, fun h => absurd (bdesc ▸ md) h, fun _ _ => hparsed⟩
    · obtain ⟨hres, q, hq, _⟩ := hcontents f hc
      refine ⟨hroot _ _ hq, ?_, fun h => absurd h hres⟩
      intro _
      rw [hq]
      have : zipName k updateLocation ++ '/' :: (k.CARBON_HOME ++ '/' :: q) =
          (zipName k updateLocation ++ ['/']) ++ k.CARBON_HOME ++ ('/' :: q) := by simp
      rw [this]
      exact stringsContains_infix _ _ _
  have hscan := (scanEntries_ok_iff k (zipName k updateLocation) files (initializeState k) 0
    _ hshared).2 ⟨hentry, rfl⟩
  -- nothing mandatory is missing
  have hempty : (dropOptional k (scanResult k (zipName k updateLocation) files
      (initializeState k))).allResFiles = ∅ := by
    apply dropOptional_eq_empty_of_mandatory k files _ rfl
    simp only [Constants.mandatory, List.mem_cons, List.mem_singleton, List.not_mem_nil,
      or_false, forall_eq_or_imp, forall_eq]
    exact ⟨⟨lic, hfiles.mem_iff.2 (by simp), blic⟩, ⟨readme, hfiles.mem_iff.2 (by simp), breadme⟩,
      ⟨desc, hfiles.mem_iff.2 (by simp), bdesc⟩⟩
  refine ⟨dropOptional k (scanResult k (zipName k updateLocation) files (initializeState k)),
    _, ?_, readDistZip_eq k distLocation distFiles _, ?_⟩
  · rw [readUpdateZip_of_scan_ok k updateLocation files _ _ hnaming hscan, if_pos hempty]
  · intro order horder
    rw [validate_ok_iff]
    intro p hp
    have hp2 := List.mem_toFinset.2 hp
    rw [horder] at hp2
    left
    simp only [dropOptional, scanResult, initializeState, Finset.empty_union, List.mem_toFinset,
      List.mem_map, List.mem_filter, decide_eq_true_eq] at hp2
    obtain ⟨f, ⟨hf, hres⟩, hkey⟩ := hp2
    have hres0 : f.baseName ∉ (initializeState k).allResFiles := by
      simpa [initializeState] using hres
    rcases hkind f hf with rfl | rfl | rfl | hc
    · exact absurd (blic ▸ ml) hres0
    · exact absurd (breadme ▸ mr) hres0
    · exact absurd (bdesc ▸ md) hres0
    · obtain ⟨_, q, hq, g, hg, hgq⟩ := hcontents f hc
      rw [hq, updateKey_under_root] at hkey
      simp only [Finset.mem_union, List.mem_toFinset, List.mem_map]
      right
      refine ⟨g, hg, ?_⟩
      rw [← hkey, hgq, distZipKey, stringsTrimPrefix_append]

/-- Witness of C10: scenario A, the descriptor with an empty added-files list and the entries
in another order. -/
theorem end_to_end_pass_witness :
    ∃ st1 st2, readUpdateZip sampleConstants "upd-1.zip".toList
        (some [File.mk "upd-1/contentroot/app/plugin.jar".toList Descriptor.readError,
          File.mk "upd-1/update-descriptor.yaml".toList (Descriptor.parsed []),
          File.mk "upd-1/LICENSE.txt".toList Descriptor.readError,
          File.mk "upd-1/README.txt".toList Descriptor.readError])
        (initializeState sampleConstants) = Except.ok st1 ∧
      readDistZip sampleConstants "dist.zip".toList
        (some [File.mk "dist/bin/run.sh".toList Descriptor.readError,
          File.mk "dist/app/plugin.jar".toList Descriptor.readError]) st1 = Except.ok st2 ∧
      ∀ order : List Str, order.toFinset = st2.updatedFilesMap →
        validate st2 order = Except.ok () :=
  end_to_end_pass sampleConstants "upd-1.zip".toList "dist.zip".toList
    [File.mk "upd-1/contentroot/app/plugin.jar".toList Descriptor.readError,
      File.mk "upd-1/update-descriptor.yaml".toList (Descriptor.parsed []),
      File.mk "upd-1/LICENSE.txt".toList Descriptor.readError,
      File.mk "upd-1/README.txt".toList Descriptor.readError]
    [File.mk "upd-1/contentroot/app/plugin.jar".toList Descriptor.readError]
    [File.mk "dist/bin/run.sh".toList Descriptor.readError,
      File.mk "dist/app/plugin.jar".toList Descriptor.readError]
    (File.mk "upd-1/LICENSE.txt".toList Descriptor.readError)
    (File.mk "upd-1/README.txt".toList Descriptor.readError)
    (File.mk "upd-1/update-descriptor.yaml".toList (Descriptor.parsed []))
    (by decide) (by decide) (by decide) (by decide) (by decide) rfl rfl rfl rfl
    (by
      intro c hc
      rw [List.mem_singleton] at hc
      subst hc
      exact ⟨by decide, "app/plugin.jar".toList, by decide,
        File.mk "dist/app/plugin.jar".toList Descriptor.readError, by decide, by decide⟩)

/-! ## C11: the path named by the reconciliation failure -/

theorem validate_error_split (st : State) (order : List Str) (e : Failure)
    (hfail : validate st order = Except.error e) :
    ∃ pre p post, order = pre ++ p :: post ∧ e = Failure.notInDistribution p ∧
      p ∉ st.distFileMap ∧ p ∉ st.addedFilesMap ∧
      (∀ x ∈ pre, x ∈ st.distFileMap ∨ x ∈ st.addedFilesMap) := by
  induction order with
  | nil => simp [validate] at hfail
  | cons updateLoc rest ih =>
    by_cases hsat : updateLoc ∈ st.distFileMap ∨ updateLoc ∈ st.addedFilesMap
    · have hrest : validate st rest = Except.error e := by
        rcases hsat with hd | ha
        · simpa [validate, hd] using hfail
        · by_cases hd : updateLoc ∈ st.distFileMap
          · simpa [validate, hd] using hfail
          · simpa [validate, hd, ha] using hfail
      obtain ⟨pre, p, post, h1, h2, h3, h4, h5⟩ := ih hrest
      refine ⟨updateLoc :: pre, p, post, by simp [h1], h2, h3, h4, ?_⟩
      intro x hx
      rcases List.mem_cons.1 hx with rfl | hx
      · exact hsat
      · exact h5 x hx
    · have hd : updateLoc ∉ st.distFileMap := fun h => hsat (Or.inl h)
      have ha : updateLoc ∉ st.addedFilesMap := fun h => hsat (Or.inr h)
      simp only [validate, hd, ha, if_false, Except.error.injEq] at hfail
      exact ⟨[], updateLoc, rest, rfl, hfail.symm, hd, ha, by simp⟩

theorem validate_stops (st : State) (pre post : List Str) (p : Str)
    (hpre : ∀ x ∈ pre, x ∈ st.distFileMap ∨ x ∈ st.addedFilesMap)
    (hd : p ∉ st.distFileMap) (ha : p ∉ st.addedFilesMap) :
    validate st (pre ++ p :: post) = Except.error (Failure.notInDistribution p) := by
  induction pre with
  | nil => simp [validate, hd, ha]
  | cons x pre ih =>
    have hx := hpre x (List.mem_cons_self _ _)
    have hrest := ih (fun y hy => hpre y (List.mem_cons_of_mem _ hy))
    by_cases hxd : x ∈ st.distFileMap
    · simpa [validate, hxd] using hrest
    · have hxa : x ∈ st.addedFilesMap := hx.resolve_left hxd
      simpa [validate, hxd, hxa] using hrest

/-- C11: when `validate` fails, the failure names a key of `updatedFilesMap` that is neither in
`distFileMap` nor in `addedFilesMap`; it is the first such key in the order of the `range`
loop (every key visited before it is satisfied), and the keys after it are not examined: the
outcome is the same whatever follows it. On scenario B (content entry
`upd-1/contentroot/app/plugin.jar`, a distribution without it, empty added-files list) the
named key is `/app/plugin.jar`. -/
theorem validate_fail_first (st : State) (order : List Str) (e : Failure)
    (horder : order.toFinset = st.updatedFilesMap)
    (hfail : validate st order = Except.error e) :
    (∃ pre p post, order = pre ++ p :: post ∧ e = Failure.notInDistribution p ∧
      p ∈ st.updatedFilesMap ∧ p ∉ st.distFileMap ∧ p ∉ st.addedFilesMap ∧
      (∀ x ∈ pre, x ∈ st.distFileMap ∨ x ∈ st.addedFilesMap) ∧
      (∀ post2 : List Str, validate st (pre ++ p :: post2) = Except.error e)) ∧
    (readUpdateZip sampleConstants "upd-1.zip".toList
        (some [File.mk "upd-1/LICENSE.txt".toList Descriptor.readError,
          File.mk "upd-1/README.txt".toList Descriptor.readError,
          File.mk "upd-1/update-descriptor.yaml".toList (Descriptor.parsed []),
          File.mk "upd-1/contentroot/app/plugin.jar".toList Descriptor.readError])
        (initializeState sampleConstants) =
      Except.ok ⟨∅, {"/app/plugin.jar".toList}, ∅, ∅⟩ ∧
     readDistZip sampleConstants "dist.zip".toList
        (some [File.mk "dist/bin/run.sh".toList Descriptor.readError])
        ⟨∅, {"/app/plugin.jar".toList}, ∅, ∅⟩ =
      Except.ok ⟨∅, {"/app/plugin.jar".toList}, {"/bin/run.sh".toList}, ∅⟩ ∧
     validate ⟨∅, {"/app/plugin.jar".toList}, {"/bin/run.sh".toList}, ∅⟩
        ["/app/plugin.jar".toList] =
      Except.error (Failure.notInDistribution "/app/plugin.jar".toList)) := by
  refine ⟨?_, by decide⟩
  obtain ⟨pre, p, post, h1, h2, h3, h4, h5⟩ := validate_error_split st order e hfail
  refine ⟨pre, p, post, h1, h2, ?_, h3, h4, h5, ?_⟩
  · rw [← horder, h1]
    simp
  · intro post2
    rw [h2]
    exact validate_stops st pre post2 p h5 h3 h4

/-- Witness of C11: three keys, the second and the third unsatisfied; the second is named. -/
theorem validate_fail_first_witness :
    ∃ pre p post, ["/a".toList, "/b".toList, "/c".toList] = pre ++ p :: post ∧
      Failure.notInDistribution "/b".toList = Failure.notInDistribution p ∧
      p ∈ (State.mk ∅ {"/a".toList, "/b".toList, "/c".toList} {"/a".toList} ∅).updatedFilesMap ∧
      p ∉ (State.mk ∅ {"/a".toList, "/b".toList, "/c".toList} {"/a".toList} ∅).distFileMap ∧
      p ∉ (State.mk ∅ {"/a".toList, "/b".toList, "/c".toList} {"/a".toList} ∅).addedFilesMap ∧
      (∀ x ∈ pre,
        x ∈ (State.mk ∅ {"/a".toList, "/b".toList, "/c".toList} {"/a".toList} ∅).distFileMap ∨
        x ∈ (State.mk ∅ {"/a".toList, "/b".toList, "/c".toList} {"/a".toList} ∅).addedFilesMap) ∧
      (∀ post2 : List Str,
        validate (State.mk ∅ {"/a".toList, "/b".toList, "/c".toList} {"/a".toList} ∅)
          (pre ++ p :: post2) = Except.error (Failure.notInDistribution "/b".toList)) :=
  (validate_fail_first ⟨∅, {"/a".toList, "/b".toList, "/c".toList}, {"/a".toList}, ∅⟩
    ["/a".toList, "/b".toList, "/c".toList] (Failure.notInDistribution "/b".toList)
    (by decide) (by decide)).1

/-! ## C12: the report of the missing resource files -/

/-- Whenever a resource file is missing, lines 269-275 print the heading and nothing else:
the process ends inside line 271. -/
theorem reportMissingResources_output (st : State) (order : List Str)
    (h : st.allResFiles ≠ ∅) :
    (reportMissingResources st order).run.run [] =
      (Except.error Failure.resourceFilesMissing,
        ["Following resource file(s) were not found in the update zip: ".toList]) := by
  have hc : st.allResFiles.card ≠ 0 := fun e => h (Finset.card_eq_zero.1 e)
  unfold reportMissingResources printFailureAndExitPrinting Println
  simp only [hc, ne_eq, not_false_eq_true, if_true]
  rfl

/-- C12 (failing input): the package with the license and the readme but no descriptor fails
with the missing-resource failure, the descriptor is what is left in `allResFiles` after the
scan, and the output of lines 269-275 is the heading alone: the line for the descriptor is
not printed. -/
theorem missing_resources_failing_input :
    readUpdateZip sampleConstants "upd-1.zip".toList
        (some [File.mk "upd-1/LICENSE.txt".toList Descriptor.readError,
          File.mk "upd-1/README.txt".toList Descriptor.readError])
        (initializeState sampleConstants) = Except.error Failure.resourceFilesMissing ∧
    (scanEntries sampleConstants "upd-1".toList
        [File.mk "upd-1/LICENSE.txt".toList Descriptor.readError,
          File.mk "upd-1/README.txt".toList Descriptor.readError]
        (initializeState sampleConstants) 0).toOption.map
          (fun r => (dropOptional sampleConstants r.1).allResFiles) =
      some {"update-descriptor.yaml".toList} ∧
    (reportMissingResources ⟨{"update-descriptor.yaml".toList}, ∅, ∅, ∅⟩
        ["update-descriptor.yaml".toList]).run.run [] =
      (Except.error Failure.resourceFilesMissing,
        ["Following resource file(s) were not found in the update zip: ".toList]) ∧
    "\t - update-descriptor.yaml".toList ∉
      ["Following resource file(s) were not found in the update zip: ".toList] := by
  refine ⟨by decide, by decide, ?_, by decide⟩
  exact reportMissingResources_output _ _ (by decide)

/-! ## C13: the distribution archive has no root check -/

/-- C13 as stated fails: in `dist.zip` the entry `other/app/plugin.jar` has another first
segment and the entry `README` has none, yet `readDistZip` succeeds and records both names
unstripped in `distFileMap`. -/
theorem readDistZip_root_counterexample :
    zipName sampleConstants "dist.zip".toList = "dist".toList ∧
    readDistZip sampleConstants "dist.zip".toList
        (some [File.mk "other/app/plugin.jar".toList Descriptor.readError,
          File.mk "README".toList Descriptor.readError])
        (initializeState sampleConstants) =
      Except.ok { initializeState sampleConstants with
        distFileMap := {"README".toList, "other/app/plugin.jar".toList} } := by
  decide

/-- C13 (amended): `readDistZip` applies no root check. On every entry sequence of an archive
that opens it succeeds; an entry whose name begins with the archive name `D` is recorded
without that leading `D` (the key of `D/q` is `/q`), and an entry whose name does not begin
with `D` is recorded under its whole name. -/
theorem readDistZip_no_root_check (k : Constants) (zipLocation : Str) (files : List File)
    (st : State) :
    ∃ st1, readDistZip k zipLocation (some files) st = Except.ok st1 ∧
      ∀ f ∈ files,
        (∀ q, f.Name = zipName k zipLocation ++ q → q ∈ st1.distFileMap) ∧
        (stringsHasPrefix f.Name (zipName k zipLocation) = false → f.Name ∈ st1.distFileMap) := by
  refine ⟨_, readDistZip_eq k zipLocation files st, ?_⟩
  intro f hf
  constructor
  · intro q hq
    simp only [Finset.mem_union, List.mem_toFinset, List.mem_map]
    right
    exact ⟨f, hf, by rw [hq, distZipKey, stringsTrimPrefix_append]⟩
  · intro hp
    simp only [Finset.mem_union, List.mem_toFinset, List.mem_map]
    right
    exact ⟨f, hf, by simp [distZipKey, stringsTrimPrefix, hp]⟩

/-- Witness of C13: an archive `dist.zip` with one entry under `dist/` and one outside. -/
theorem readDistZip_no_root_check_witness :
    ∃ st1, readDistZip sampleConstants "dist.zip".toList
        (some [File.mk "dist/app/plugin.jar".toList Descriptor.readError,
          File.mk "other/x".toList Descriptor.readError]) ⟨∅, ∅, ∅, ∅⟩ = Except.ok st1 ∧
      ∀ f ∈ [File.mk "dist/app/plugin.jar".toList Descriptor.readError,
          File.mk "other/x".toList Descriptor.readError],
        (∀ q, f.Name = zipName sampleConstants "dist.zip".toList ++ q → q ∈ st1.distFileMap) ∧
        (stringsHasPrefix f.Name (zipName sampleConstants "dist.zip".toList) = false →
          f.Name ∈ st1.distFileMap) :=
  readDistZip_no_root_check sampleConstants "dist.zip".toList
    [File.mk "dist/app/plugin.jar".toList Descriptor.readError,
      File.mk "other/x".toList Descriptor.readError] ⟨∅, ∅, ∅, ∅⟩

/-! ## C14: the name of the update package -/

theorem readUpdateZip_of_none (k : Constants) (zipLocation : Str) (st : State)
    (hnaming : stringsHasPrefix (zipName k zipLocation) k.UPDATE_NAME_PREFIX = true) :
    readUpdateZip k zipLocation none st = Except.error Failure.zipOpen := by
  simp [readUpdateZip, printFailureAndExit, hnaming]

/-- C14: the update name that `readUpdateZip` derives is the location without its `.zip`
suffix and without everything up to the last path separator; `readUpdateZip` fails with the
naming failure if and only if that name does not begin with the required prefix, and it then
does so whatever the archive is (unreadable, or with any entries) and whatever the variables
are: no entry is examined before. -/
theorem readUpdateZip_naming (k : Constants) (zipLocation : Str) (zip : Option (List File))
    (st : State) :
    zipName k zipLocation = baseNameOfLocation k.PathSeparator zipLocation ∧
    (readUpdateZip k zipLocation zip st = Except.error Failure.updateNamePrefix ↔
      ¬ (k.UPDATE_NAME_PREFIX <+: baseNameOfLocation k.PathSeparator zipLocation)) ∧
    (¬ (k.UPDATE_NAME_PREFIX <+: baseNameOfLocation k.PathSeparator zipLocation) →
      ∀ (zip2 : Option (List File)) (st2 : State),
        readUpdateZip k zipLocation zip2 st2 = Except.error Failure.updateNamePrefix) := by
  have hname := zipName_eq_baseNameOfLocation k zipLocation
  have hfalse : ¬ (k.UPDATE_NAME_PREFIX <+: baseNameOfLocation k.PathSeparator zipLocation) →
      stringsHasPrefix (zipName k zipLocation) k.UPDATE_NAME_PREFIX = false := by
    intro h
    rw [← hname, ← stringsHasPrefix_iff] at h
    simpa using h
  refine ⟨hname, ?_, ?_⟩
  · constructor
    · intro hfail hpre
      have hnaming : stringsHasPrefix (zipName k zipLocation) k.UPDATE_NAME_PREFIX = true := by
        rw [stringsHasPrefix_iff, hname]
        exact hpre
      cases zip with
      | none =>
        rw [readUpdateZip_of_none k zipLocation st hnaming] at hfail
        cases hfail
      | some files =>
        cases hscan : scanEntries k (zipName k zipLocation) files st 0 with
        | error e =>
          rw [readUpdateZip_of_scan_error k zipLocation files st e hnaming hscan] at hfail
          cases hfail
          rcases scanEntries_error_kind k _ files st 0 _ hscan with h | h | h | h <;>
            simp [Failure.isStructure, Failure.isLayout] at h
        | ok r =>
          rw [readUpdateZip_of_scan_ok k zipLocation files st r hnaming hscan] at hfail
          split at hfail <;> cases hfail
    · intro h
      exact readUpdateZip_of_naming k zipLocation zip st (hfalse h)
  · intro h zip2 st2
    exact readUpdateZip_of_naming k zipLocation zip2 st2 (hfalse h)

/-- Witness of C14: a location in a directory, whose base name lacks the prefix `upd`. -/
theorem readUpdateZip_naming_witness :
    zipName sampleConstants "/tmp/out/patch-7.zip".toList = "patch-7".toList ∧
    readUpdateZip sampleConstants "/tmp/out/patch-7.zip".toList
        (some [File.mk "patch-7/LICENSE.txt".toList Descriptor.readError])
        (initializeState sampleConstants) = Except.error Failure.updateNamePrefix :=
  ⟨by decide,
    (readUpdateZip_naming sampleConstants "/tmp/out/patch-7.zip".toList none
      (initializeState sampleConstants)).2.2 (by decide) _ _⟩

/-! ## C15: the descriptor is decoded once -/

/-- C15: in every successful run of `readUpdateZip` from the initial variables there is a
first entry with the base name of the descriptor; it is decoded, and afterwards
`addedFilesMap` is exactly the set of the strings of its added-files list (empty when the
list is empty). No other entry is decoded: the run has the same outcome whatever the content
of the entries before and after it is, those with the base name of the descriptor included.
The name of the descriptor is taken to differ from the two optional names. -/
theorem descriptor_decoded_once (k : Constants) (zipLocation : Str) (files : List File)
    (st1 : State)
    (hdesc : k.UPDATE_DESCRIPTOR_FILE ∉ k.optional)
    (hsucc : readUpdateZip k zipLocation (some files) (initializeState k) = Except.ok st1) :
    ∃ pre d post Added_files, files = pre ++ d :: post ∧
      (∀ f ∈ pre, f.baseName ≠ k.UPDATE_DESCRIPTOR_FILE) ∧
      d.baseName = k.UPDATE_DESCRIPTOR_FILE ∧
      d.descriptor = Descriptor.parsed Added_files ∧
      st1.addedFilesMap = Added_files.toFinset ∧
      (Added_files = [] → st1.addedFilesMap = ∅) ∧
      (∀ pre2 post2 : List File, pre2.map File.Name = pre.map File.Name →
        post2.map File.Name = post.map File.Name →
        readUpdateZip k zipLocation (some (pre2 ++ d :: post2)) (initializeState k) =
          Except.ok st1) := by
  obtain ⟨hnaming, r, hscan, hempty, hst1⟩ :=
    (readUpdateZip_ok_iff k zipLocation files _ st1).1 hsucc
  have hres := (scanEntries_ok_facts k _ files _ 0 r hscan).2.1
  -- the descriptor is the base name of an entry
  have hex : ∃ f ∈ files, f.baseName = k.UPDATE_DESCRIPTOR_FILE := by
    by_contra hno
    have hmem : k.UPDATE_DESCRIPTOR_FILE ∈ (dropOptional k r.1).allResFiles := by
      simp only [Constants.optional, List.mem_cons, List.mem_singleton, List.not_mem_nil,
        or_false, not_or] at hdesc
      simp only [dropOptional, hres, Finset.mem_erase, Finset.mem_sdiff, List.mem_toFinset,
        List.mem_map, ne_eq]
      refine ⟨hdesc.2, hdesc.1, descriptor_mem_initializeState k, ?_⟩
      rintro ⟨f, hf, hfn⟩
      exact hno ⟨f, hf, hfn⟩
    rw [hempty] at hmem
    simp at hmem
  obtain ⟨pre, d, post, hfiles, hpre, hd⟩ := exists_first_baseName _ files hex
  subst hfiles
  -- the three parts of the loop
  rw [scanEntries_append] at hscan
  cases hs1 : scanEntries k (zipName k zipLocation) pre (initializeState k) 0 with
  | error e => simp [hs1, bind, Except.bind] at hscan
  | ok r1 =>
    simp only [hs1, bind, Except.bind] at hscan
    obtain ⟨hentry, hpost⟩ := (scanEntries_cons_ok k _ d post r1.1 r1.2 r).1 hscan
    have hin : d.baseName ∈ r1.1.allResFiles := by
      rw [(scanEntries_ok_facts k _ pre _ 0 r1 hs1).2.1, hd]
      simp only [Finset.mem_sdiff, List.mem_toFinset, List.mem_map, not_exists, not_and]
      exact ⟨descriptor_mem_initializeState k, fun f hf => hpre f hf⟩
    have hparsed : d.descriptor.isParsed = true := hentry.2.2 hin hd
    obtain ⟨Added_files, hAdded⟩ : ∃ l, d.descriptor = Descriptor.parsed l := by
      cases hdd : d.descriptor with
      | readError => simp [hdd, Descriptor.isParsed] at hparsed
      | unmarshalError => simp [hdd, Descriptor.isParsed] at hparsed
      | parsed l => exact ⟨l, rfl⟩
    have hout : k.UPDATE_DESCRIPTOR_FILE ∉ (entryResult k (zipName k zipLocation) d
        r1.1).allResFiles := by
      rw [entryResult_allResFiles, hd]
      simp
    have hadd1 : r1.1.addedFilesMap = ∅ := by
      rw [scanEntries_addedFilesMap k _ pre _ 0 r1 hs1 (fun f hf e => absurd e (hpre f hf))]
      rfl
    have hadd : r.1.addedFilesMap = Added_files.toFinset := by
      rw [scanEntries_addedFilesMap k _ post _ _ r hpost (fun _ _ _ => hout),
        entryResult_addedFilesMap, if_pos ⟨hin, hd⟩, hadd1, hAdded]
      simp [Descriptor.added]
    have hst1a : st1.addedFilesMap = Added_files.toFinset := by
      rw [← hst1]
      exact hadd
    refine ⟨pre, d, post, Added_files, rfl, hpre, hd, hAdded, hst1a, ?_, ?_⟩
    · intro hnil
      rw [hst1a, hnil]
      rfl
    · intro pre2 post2 hn1 hn2
      have hs1b : scanEntries k (zipName k zipLocation) pre2 (initializeState k) 0 =
          Except.ok r1 := by
        rw [← hs1]
        refine (scanEntries_congr k _ pre pre2 _ 0 hn1.symm ?_).symm
        intro f hf e
        exact absurd e (hpre f hf)
      have hpostb : scanEntries k (zipName k zipLocation) post2
          (entryResult k (zipName k zipLocation) d r1.1) (r1.2 + 1) = Except.ok r := by
        rw [← hpost]
        exact (scanEntries_congr k _ post post2 _ _ hn2.symm (fun _ _ _ => hout)).symm
      have hscan2 : scanEntries k (zipName k zipLocation) (pre2 ++ d :: post2)
          (initializeState k) 0 = Except.ok r := by
        rw [scanEntries_append, hs1b]
        simp only [bind, Except.bind]
        exact (scanEntries_cons_ok k _ d post2 r1.1 r1.2 r).2 ⟨hentry, hpostb⟩
      rw [readUpdateZip_of_scan_ok k zipLocation _ _ r hnaming hscan2, if_pos hempty, hst1]

/-- Witness of C15: a second, undecodable `update-descriptor.yaml` under the content root
follows the descriptor. -/
theorem descriptor_decoded_once_witness :
    ∃ pre d post Added_files,
      [File.mk "upd-1/LICENSE.txt".toList Descriptor.readError,
        File.mk "upd-1/README.txt".toList Descriptor.readError,
        File.mk "upd-1/update-descriptor.yaml".toList (Descriptor.parsed ["/app/new.jar".toList]),
        File.mk "upd-1/contentroot/update-descriptor.yaml".toList Descriptor.unmarshalError] =
          pre ++ d :: post ∧
      (∀ f ∈ pre, f.baseName ≠ sampleConstants.UPDATE_DESCRIPTOR_FILE) ∧
      d.baseName = sampleConstants.UPDATE_DESCRIPTOR_FILE ∧
      d.descriptor = Descriptor.parsed Added_files ∧
      (State.mk ∅ {"/update-descriptor.yaml".toList} ∅ {"/app/new.jar".toList}).addedFilesMap =
        Added_files.toFinset ∧
      (Added_files = [] →
        (State.mk ∅ {"/update-descriptor.yaml".toList} ∅
          {"/app/new.jar".toList}).addedFilesMap = ∅) ∧
      (∀ pre2 post2 : List File, pre2.map File.Name = pre.map File.Name →
        post2.map File.Name = post.map File.Name →
        readUpdateZip sampleConstants "upd-1.zip".toList (some (pre2 ++ d :: post2))
          (initializeState sampleConstants) =
          Except.ok ⟨∅, {"/update-descriptor.yaml".toList}, ∅, {"/app/new.jar".toList}⟩) :=
  descriptor_decoded_once sampleConstants "upd-1.zip".toList
    [File.mk "upd-1/LICENSE.txt".toList Descriptor.readError,
      File.mk "upd-1/README.txt".toList Descriptor.readError,
      File.mk "upd-1/update-descriptor.yaml".toList (Descriptor.parsed ["/app/new.jar".toList]),
      File.mk "upd-1/contentroot/update-descriptor.yaml".toList Descriptor.unmarshalError]
    ⟨∅, {"/update-descriptor.yaml".toList}, ∅, {"/app/new.jar".toList}⟩
    (by decide) (by decide)

/-! ## C16: resource files are recognised by their base name -/

theorem scanEntry_resource (k : Constants) (updateName : Str) (f : File) (st : State)
    (hroot : rootFolderOk updateName f) (hin : f.baseName ∈ st.allResFiles)
    (hdesc : f.baseName = k.UPDATE_DESCRIPTOR_FILE → f.descriptor.isParsed = true) :
    scanEntry k updateName f st = Except.ok (entryResult k updateName f st) ∧
      (entryResult k updateName f st).allResFiles = st.allResFiles.erase f.baseName ∧
      (entryResult k updateName f st).updatedFilesMap = st.updatedFilesMap := by
  refine ⟨(scanEntry_ok_iff k updateName f st _).2 ⟨⟨hroot, fun h => absurd hin h,
    fun _ e => hdesc e⟩, rfl⟩, entryResult_allResFiles k updateName f st, ?_⟩
  rw [entryResult_updatedFilesMap, if_pos hin]

theorem scanEntry_descriptor_error (k : Constants) (updateName : Str) (f : File) (st : State)
    (hroot : rootFolderOk updateName f) (hin : f.baseName ∈ st.allResFiles)
    (hd : f.baseName = k.UPDATE_DESCRIPTOR_FILE) (hnp : f.descriptor.isParsed = false) :
    scanEntry k updateName f st = Except.error Failure.descriptorRead ∨
      scanEntry k updateName f st = Except.error Failure.descriptorUnmarshal := by
  unfold rootFolderOk at hroot
  obtain ⟨h1, h2⟩ := hroot
  have h3d : k.UPDATE_DESCRIPTOR_FILE ∈ st.allResFiles := hd ▸ hin
  unfold scanEntry printFailureAndExit
  cases hdd : f.descriptor with
  | readError => simp [h1, h2, h3d, hd, pure, Except.pure]
  | unmarshalError => simp [h1, h2, h3d, hd, pure, Except.pure]
  | parsed l => simp [hdd, Descriptor.isParsed] at hnp

/-- C16: an entry under the package root whose base name is a key of `allResFiles` is taken as
that resource file: the loop body deletes the name from `allResFiles` and leaves
`updatedFilesMap` as it is (or, for the descriptor, ends the run when it cannot be read or
decoded), whatever folders the entry lies in, the content-root folder included. Hence in a
package where such a file is the only entry with its base name, a scan that passes has
consumed the name (it is not reported missing) and every key of `updatedFilesMap` is the key
of another entry: the file is never looked up in the distribution. -/
theorem resource_by_base_name (k : Constants) (zipLocation : Str) (pre post : List File)
    (file : File) (r : State × Nat)
    (hin : file.baseName ∈ (initializeState k).allResFiles)
    (honly : ∀ g ∈ pre ++ post, g.baseName ≠ file.baseName)
    (hscan : scanEntries k (zipName k zipLocation) (pre ++ file :: post) (initializeState k) 0
      = Except.ok r) :
    (∀ (f : File) (st : State), rootFolderOk (zipName k zipLocation) f →
      f.baseName ∈ st.allResFiles →
      (∃ st1, scanEntry k (zipName k zipLocation) f st = Except.ok st1 ∧
        st1.allResFiles = st.allResFiles.erase f.baseName ∧
        st1.updatedFilesMap = st.updatedFilesMap) ∨
      (f.baseName = k.UPDATE_DESCRIPTOR_FILE ∧
        (scanEntry k (zipName k zipLocation) f st = Except.error Failure.descriptorRead ∨
          scanEntry k (zipName k zipLocation) f st =
            Except.error Failure.descriptorUnmarshal))) ∧
    (∀ (dir m : Str) (content : Descriptor) (st : State), '/' ∉ zipName k zipLocation →
      m ≠ [] → '/' ∉ m → m ∈ st.allResFiles → m ≠ k.UPDATE_DESCRIPTOR_FILE →
      scanEntry k (zipName k zipLocation)
          (File.mk (zipName k zipLocation ++ '/' :: (dir ++ '/' :: m)) content) st =
        Except.ok { st with allResFiles := st.allResFiles.erase m }) ∧
    file.baseName ∉ r.1.allResFiles ∧
    (∀ p ∈ r.1.updatedFilesMap,
      ∃ g ∈ pre ++ post, p = updateKey k (zipName k zipLocation) g.Name) := by
  refine ⟨?_, ?_, ?_, ?_⟩
  · intro f st hroot hfin
    by_cases hdesc : f.baseName = k.UPDATE_DESCRIPTOR_FILE → f.descriptor.isParsed = true
    · obtain ⟨h1, h2, h3⟩ := scanEntry_resource k _ f st hroot hfin hdesc
      exact Or.inl ⟨_, h1, h2, h3⟩
    · have hd : f.baseName = k.UPDATE_DESCRIPTOR_FILE := by
        by_contra hne
        exact hdesc (fun e => absurd e hne)
      have hnp : f.descriptor.isParsed = false := by
        cases hp : f.descriptor.isParsed with
        | false => rfl
        | true => exact absurd (fun _ => hp) hdesc
      exact Or.inr ⟨hd, scanEntry_descriptor_error k _ f st hroot hfin hd hnp⟩
  · intro dir m content st hN hne hslash hm hnd
    have hbase : File.baseName (File.mk (zipName k zipLocation ++ '/' :: (dir ++ '/' :: m))
        content) = m := by
      have : zipName k zipLocation ++ '/' :: (dir ++ '/' :: m) =
          (zipName k zipLocation ++ '/' :: dir) ++ '/' :: m := by simp
      rw [File.baseName, this, pathBase_append _ _ hne hslash]
    have hroot : rootFolderOk (zipName k zipLocation)
        (File.mk (zipName k zipLocation ++ '/' :: (dir ++ '/' :: m)) content) :=
      (rootFolder_check_iff _ _).2 ⟨hN, _, rfl⟩
    obtain ⟨h1, _, _⟩ := scanEntry_resource k _ _ st hroot (by rw [hbase]; exact hm)
      (fun e => absurd (hbase.symm.trans e) hnd)
    rw [h1]
    unfold entryResult
    rw [hbase, if_pos hm, if_neg hnd]
  · rw [(scanEntries_ok_facts k _ _ _ 0 r hscan).2.1]
    simp
  · intro p hp
    rw [scanEntries_append] at hscan
    cases hs1 : scanEntries k (zipName k zipLocation) pre (initializeState k) 0 with
    | error e => simp [hs1, bind, Except.bind] at hscan
    | ok r1 =>
      simp only [hs1, bind, Except.bind] at hscan
      obtain ⟨_, hpost⟩ := (scanEntries_cons_ok k _ file post r1.1 r1.2 r).1 hscan
      have hin1 : file.baseName ∈ r1.1.allResFiles := by
        rw [(scanEntries_ok_facts k _ pre _ 0 r1 hs1).2.1]
        simp only [Finset.mem_sdiff, List.mem_toFinset, List.mem_map, not_exists, not_and]
        exact ⟨hin, fun g hg => honly g (List.mem_append_left _ hg)⟩
      rcases (scanEntries_ok_maps k _ post _ _ r hpost).2.2.1 p hp with h | ⟨g, hg, _, hpg⟩
      · rw [entryResult_updatedFilesMap, if_pos hin1] at h
        rcases (scanEntries_ok_maps k _ pre _ 0 r1 hs1).2.2.1 p h with h0 | ⟨g, hg, _, hpg⟩
        · simp [initializeState] at h0
        · exact ⟨g, List.mem_append_left _ hg, hpg⟩
      · exact ⟨g, List.mem_append_right _ hg, hpg⟩

/-- Witness of C16: the license lies only under the content root, two folders deep; the scan
passes and records no key for it. -/
theorem resource_by_base_name_witness :
    readUpdateZip sampleConstants "upd-1.zip".toList
        (some [File.mk "upd-1/README.txt".toList Descriptor.readError,
          File.mk "upd-1/contentroot/docs/LICENSE.txt".toList Descriptor.readError,
          File.mk "upd-1/update-descriptor.yaml".toList (Descriptor.parsed [])])
        (initializeState sampleConstants) = Except.ok ⟨∅, ∅, ∅, ∅⟩ ∧
    File.baseName (File.mk "upd-1/contentroot/docs/LICENSE.txt".toList Descriptor.readError) ∉
      (State.mk {"instructions.txt".toList, "NOT_A_CONTRIBUTION.txt".toList} ∅ ∅ ∅).allResFiles :=
  ⟨by decide,
    (resource_by_base_name sampleConstants "upd-1.zip".toList
      [File.mk "upd-1/README.txt".toList Descriptor.readError]
      [File.mk "upd-1/update-descriptor.yaml".toList (Descriptor.parsed [])]
      (File.mk "upd-1/contentroot/docs/LICENSE.txt".toList Descriptor.readError)
      (⟨{"instructions.txt".toList, "NOT_A_CONTRIBUTION.txt".toList}, ∅, ∅, ∅⟩, 3)
      (by decide) (by decide) (by decide)).2.2.1⟩

/-! ## C17: the verdict is monotone -/

/-- C17: if `validate` passes for the update keys `U` against `D` and `A`, it passes for every
subset of `U` against every superset of `D` and every superset of `A`, in whatever order the
keys are visited. -/
theorem validate_monotone (st st2 : State) (order order2 : List Str)
    (horder : order.toFinset = st.updatedFilesMap)
    (horder2 : order2.toFinset = st2.updatedFilesMap)
    (hU : st2.updatedFilesMap ⊆ st.updatedFilesMap)
    (hD : st.distFileMap ⊆ st2.distFileMap)
    (hA : st.addedFilesMap ⊆ st2.addedFilesMap)
    (hpass : validate st order = Except.ok ()) :
    validate st2 order2 = Except.ok () := by
  rw [validate_ok_iff] at hpass ⊢
  intro p hp
  have hp2 : p ∈ st2.updatedFilesMap := by
    rw [← horder2]
    exact List.mem_toFinset.2 hp
  have hp1 : p ∈ order := by
    have := hU hp2
    rw [← horder] at this
    exact List.mem_toFinset.1 this
  rcases hpass p hp1 with h | h
  · exact Or.inl (hD h)
  · exact Or.inr (hA h)

/-- Witness of C17: one key less, one distribution file more, one declared file more. -/
theorem validate_monotone_witness :
    validate ⟨∅, {"/a".toList}, {"/a".toList, "/c".toList}, {"/d".toList, "/b".toList}⟩
      ["/a".toList] = Except.ok () :=
  validate_monotone ⟨∅, {"/a".toList, "/b".toList}, {"/a".toList}, {"/b".toList}⟩
    ⟨∅, {"/a".toList}, {"/a".toList, "/c".toList}, {"/d".toList, "/b".toList}⟩
    ["/b".toList, "/a".toList] ["/a".toList]
    (by decide) (by decide) (by decide) (by decide) (by decide) (by decide)

/-! ## C18: the completeness check -/

/-- C18: the counter of the loop equals the number of entries whenever the final comparison is
reached, in `readUpdateZip` as in `readDistZip`, so that neither of them ever ends with the
incomplete-read failure, whatever the location, the archive and the variables are. -/
theorem completeness_check_unreachable (k : Constants) (zipLocation : Str)
    (zip : Option (List File)) (st : State) :
    readUpdateZip k zipLocation zip st ≠ Except.error Failure.notAllFilesRead ∧
    readDistZip k zipLocation zip st ≠ Except.error Failure.notAllFilesRead ∧
    (∀ (files : List File) (r : State × Nat),
      scanEntries k (zipName k zipLocation) files st 0 = Except.ok r → r.2 = files.length) ∧
    (∀ files : List File,
      (distEntries (zipName k zipLocation) files st 0).2 = files.length) := by
  refine ⟨?_, ?_, ?_, ?_⟩
  · by_cases hnaming : stringsHasPrefix (zipName k zipLocation) k.UPDATE_NAME_PREFIX = true
    · cases zip with
      | none =>
        simp [readUpdateZip, printFailureAndExit, hnaming]
      | some files =>
        cases hscan : scanEntries k (zipName k zipLocation) files st 0 with
        | error e =>
          rw [readUpdateZip_of_scan_error k zipLocation files st e hnaming hscan]
          intro h
          cases h
          rcases scanEntries_error_kind k _ files st 0 _ hscan with h | h | h | h <;>
            simp [Failure.isStructure, Failure.isLayout] at h
        | ok r =>
          rw [readUpdateZip_of_scan_ok k zipLocation files st r hnaming hscan]
          split <;> simp
    · rw [readUpdateZip_of_naming k zipLocation zip st (by simpa using hnaming)]
      simp
  · cases zip with
    | none => simp [readDistZip, printFailureAndExit]
    | some files =>
      rw [readDistZip_eq]
      simp
  · intro files r hscan
    have := (scanEntries_ok_facts k _ files st 0 r hscan).2.2.1
    simpa using this
  · intro files
    rw [distEntries_eq]
    simp

/-- Witness of C18: a package that passes the scan, where the comparison of line 280 is
reached. -/
theorem completeness_check_unreachable_witness :
    readUpdateZip sampleConstants "upd-1.zip".toList
        (some [File.mk "upd-1/LICENSE.txt".toList Descriptor.readError,
          File.mk "upd-1/README.txt".toList Descriptor.readError,
          File.mk "upd-1/update-descriptor.yaml".toList (Descriptor.parsed [])])
        (initializeState sampleConstants) ≠ Except.error Failure.notAllFilesRead :=
  (completeness_check_unreachable sampleConstants "upd-1.zip".toList
    (some [File.mk "upd-1/LICENSE.txt".toList Descriptor.readError,
      File.mk "upd-1/README.txt".toList Descriptor.readError,
      File.mk "upd-1/update-descriptor.yaml".toList (Descriptor.parsed [])])
    (initializeState sampleConstants)).1

end Uct
